import Mathlib

/-!
Verification of the kanguru data-preparation scripts.

The Python sources under `scripts/` are shallowly embedded below.  Python
float arithmetic is modelled exactly over `ℚ`; Python's `int()` on a float
(truncation toward zero) is `pyInt`; Python dicts whose insertion order
matters are modelled as association lists; fallible code returns `Option`
or `Except`.
-/

namespace Kanguru

/-- Python `int()` applied to a float: truncation toward zero. -/
def pyInt (q : ℚ) : ℚ := if q < 0 then (-(⌊-q⌋ : ℤ) : ℚ) else ((⌊q⌋ : ℤ) : ℚ)

theorem pyInt_nonneg_le (q : ℚ) (h : 0 ≤ q) : pyInt q ≤ q := by
  unfold pyInt
  rw [if_neg (not_lt.mpr h)]
  exact Int.floor_le q

theorem pyInt_nonneg (q : ℚ) (h : 0 ≤ q) : 0 ≤ pyInt q := by
  unfold pyInt
  rw [if_neg (not_lt.mpr h)]
  exact_mod_cast Int.floor_nonneg.mpr h

/-- Stable insertion into a sorted list: the inserted element goes before
the first element it compares `le` to, so equal elements keep their
original relative order, as with Python's stable `sorted`. -/
def sInsert {α : Type} (le : α → α → Bool) (x : α) : List α → List α
  | [] => [x]
  | y :: ys => if le x y then x :: y :: ys else y :: sInsert le x ys

/-- Stable sort (insertion sort), modelling Python's `sorted`. -/
def sSort {α : Type} (le : α → α → Bool) : List α → List α
  | [] => []
  | x :: xs => sInsert le x (sSort le xs)

theorem sInsert_perm {α : Type} (le : α → α → Bool) (x : α) (l : List α) :
    (sInsert le x l).Perm (x :: l) := by
  induction l with
  | nil => exact List.Perm.refl _
  | cons y ys ih =>
    unfold sInsert
    by_cases h : le x y
    · rw [if_pos h]
    · rw [if_neg h]
      exact (List.Perm.cons y ih).trans (List.Perm.swap x y ys)

theorem sSort_perm {α : Type} (le : α → α → Bool) (l : List α) :
    (sSort le l).Perm l := by
  induction l with
  | nil => exact List.Perm.refl _
  | cons x xs ih =>
    exact (sInsert_perm le x (sSort le xs)).trans (List.Perm.cons x ih)

theorem sInsert_pairwise {α : Type} (le : α → α → Bool)
    (htrans : ∀ a b c, le a b = true → le b c = true → le a c = true)
    (htot : ∀ a b, le a b = true ∨ le b a = true)
    (x : α) (l : List α) (hl : l.Pairwise (fun a b => le a b = true)) :
    (sInsert le x l).Pairwise (fun a b => le a b = true) := by
  induction l with
  | nil => simp [sInsert]
  | cons y ys ih =>
    rcases List.pairwise_cons.mp hl with ⟨hy, hys⟩
    unfold sInsert
    by_cases h : le x y
    · rw [if_pos h]
      refine List.pairwise_cons.mpr ⟨?_, hl⟩
      intro z hz
      rcases List.mem_cons.mp hz with rfl | hz
      · exact h
      · exact htrans x y z h (hy z hz)
    · rw [if_neg h]
      refine List.pairwise_cons.mpr ⟨?_, ih hys⟩
      intro z hz
      have hz2 := (sInsert_perm le x ys).mem_iff.mp hz
      rcases List.mem_cons.mp hz2 with rfl | hz2
      · rcases htot y z with h1 | h1
        · exact h1
        · exact absurd h1 (by simpa using h)
      · exact hy z hz2

theorem sSort_pairwise {α : Type} (le : α → α → Bool)
    (htrans : ∀ a b c, le a b = true → le b c = true → le a c = true)
    (htot : ∀ a b, le a b = true ∨ le b a = true)
    (l : List α) : (sSort le l).Pairwise (fun a b => le a b = true) := by
  induction l with
  | nil => simp [sSort]
  | cons x xs ih => exact sInsert_pairwise le htrans htot x _ ih

/-- An entry of the `positions` list built in `compute_crop`
(`{'id': key, 'left': value['left'], 'top': value['top']}`). -/
structure Pos where
  id : String
  left : ℚ
  top : ℚ
deriving DecidableEq, Repr

/-- A cluster as built by `cluster_columns`: a running `center` and the
member `items`. -/
structure Cluster where
  center : ℚ
  items : List Pos
deriving DecidableEq, Repr

/-- `sorted(positions, key=lambda p: p['left'])` (Python's sort is stable,
as is `sSort`). -/
def sortByLeft (l : List Pos) : List Pos :=
  sSort (fun a b => a.left ≤ b.left) l

/-- `clusters[-1]['items'].append(pos)` followed by recomputing the center
as `sum(item['left'] for item in items) / len(items)`. -/
def clusterAppend (c : Cluster) (p : Pos) : Cluster :=
  ⟨(((c.items ++ [p]).map Pos.left).sum) / (((c.items ++ [p]).length : ℚ)),
    c.items ++ [p]⟩

/-- The loop body of `cluster_columns` for the remaining input, carrying the
cluster currently being grown (`clusters[-1]`); earlier, closed clusters are
emitted in order. -/
def growCluster (tol : ℚ) (c : Cluster) : List Pos → List Cluster
  | [] => [c]
  | p :: ps =>
    if tol < |p.left - c.center| then
      c :: growCluster tol ⟨p.left, [p]⟩ ps
    else
      growCluster tol (clusterAppend c p) ps

/-- `cluster_columns(positions, tolerance=90)` from
`scripts/generate_explanations_from_pdf.py`: sort by `left`, then grow
clusters, starting a new one whenever a box's `left` differs from the
running cluster center by more than the tolerance. -/
def cluster_columns (positions : List Pos) (tol : ℚ := 90) : List Cluster :=
  match sortByLeft positions with
  | [] => []
  | p :: ps => growCluster tol ⟨p.left, [p]⟩ ps

/-- Key-level clone of `clusterAppend`, on bare `left` values. -/
def kAppend (c : ℚ × List ℚ) (k : ℚ) : ℚ × List ℚ :=
  ⟨((c.2 ++ [k]).sum) / (((c.2 ++ [k]).length : ℚ)), c.2 ++ [k]⟩

/-- Key-level clone of `growCluster`: the clustering decision only reads the
`left` coordinates, so the cluster shapes are a function of those keys. -/
def kGrow (tol : ℚ) (c : ℚ × List ℚ) : List ℚ → List (List ℚ)
  | [] => [c.2]
  | k :: ks =>
    if tol < |k - c.1| then
      c.2 :: kGrow tol (k, [k]) ks
    else
      kGrow tol (kAppend c k) ks

theorem growCluster_cons (tol : ℚ) (c : Cluster) (p : Pos) (ps : List Pos) :
    growCluster tol c (p :: ps)
      = if tol < |p.left - c.center| then c :: growCluster tol ⟨p.left, [p]⟩ ps
        else growCluster tol (clusterAppend c p) ps := rfl

theorem kGrow_cons (tol : ℚ) (c : ℚ × List ℚ) (k : ℚ) (ks : List ℚ) :
    kGrow tol c (k :: ks)
      = if tol < |k - c.1| then c.2 :: kGrow tol (k, [k]) ks
        else kGrow tol (kAppend c k) ks := rfl

/-- The seed of the key-level fold after absorbing one more element. -/
theorem kAppend_seed (c : Cluster) (p : Pos) :
    ((clusterAppend c p).center, (clusterAppend c p).items.map Pos.left)
      = kAppend (c.center, c.items.map Pos.left) p.left := by
  simp [clusterAppend, kAppend, List.map_append]

theorem growCluster_keys (tol : ℚ) (c : Cluster) (s : List Pos) :
    (growCluster tol c s).map (fun cl => cl.items.map Pos.left)
      = kGrow tol (c.center, c.items.map Pos.left) (s.map Pos.left) := by
  induction s generalizing c with
  | nil => simp [growCluster, kGrow]
  | cons p ps ih =>
    rw [growCluster_cons, List.map_cons, kGrow_cons]
    by_cases h : tol < |p.left - c.center|
    · rw [if_pos h, if_pos h, List.map_cons, ih]
      rfl
    · rw [if_neg h, if_neg h, ih, kAppend_seed]

/-- Every key occurring in a `kGrow` cluster comes from the seed keys or the
input keys. -/
theorem kGrow_keys_subset (tol : ℚ) (c : ℚ × List ℚ) (ks : List ℚ) :
    ∀ K ∈ kGrow tol c ks, ∀ x ∈ K, x ∈ c.2 ∨ x ∈ ks := by
  induction ks generalizing c with
  | nil =>
    intro K hK x hx
    simp only [kGrow, List.mem_singleton] at hK
    subst hK
    exact Or.inl hx
  | cons k rest ih =>
    intro K hK x hx
    by_cases h : tol < |k - c.1|
    · simp only [kGrow, if_pos h, List.mem_cons] at hK
      rcases hK with rfl | hK
      · exact Or.inl hx
      · rcases ih (k, [k]) K hK x hx with h1 | h1
        · simp only [List.mem_singleton] at h1
          exact Or.inr (by simp [h1])
        · exact Or.inr (List.mem_cons_of_mem _ h1)
    · simp only [kGrow, if_neg h] at hK
      rcases ih (kAppend c k) K hK x hx with h1 | h1
      · simp only [kAppend, List.mem_append, List.mem_singleton] at h1
        rcases h1 with h1 | h1
        · exact Or.inl h1
        · exact Or.inr (by simp [h1])
      · exact Or.inr (List.mem_cons_of_mem _ h1)

/-- Adding a value to a cluster moves the mean toward it: if the value was
within tolerance of the old mean it stays within tolerance of the new one. -/
theorem mean_step (S k tol : ℚ) (n : ℕ) (hn : 1 ≤ n)
    (h : |k - S / (n : ℚ)| ≤ tol) : |k - (S + k) / ((n : ℚ) + 1)| ≤ tol := by
  have hn0 : (0 : ℚ) < (n : ℚ) := by exact_mod_cast hn
  have hn1 : (0 : ℚ) < (n : ℚ) + 1 := by linarith
  have key : k - (S + k) / ((n : ℚ) + 1) = ((n : ℚ) / ((n : ℚ) + 1)) * (k - S / (n : ℚ)) := by
    field_simp
    ring
  rw [key, abs_mul, abs_of_nonneg (by positivity : (0:ℚ) ≤ (n : ℚ) / ((n : ℚ) + 1))]
  have hfrac : (n : ℚ) / ((n : ℚ) + 1) ≤ 1 := by
    rw [div_le_one hn1]
    linarith
  calc (n : ℚ) / ((n : ℚ) + 1) * |k - S / (n : ℚ)|
      ≤ 1 * |k - S / (n : ℚ)| := by
        apply mul_le_mul_of_nonneg_right hfrac (abs_nonneg _)
    _ = |k - S / (n : ℚ)| := one_mul _
    _ ≤ tol := h

/-- The relation `p` comes weakly before `q` in reading order of the sorted
position list. -/
def leLeft (a b : Pos) : Prop := a.left ≤ b.left

/-- Main segmentation lemma: on a sorted input, each produced cluster
consists (as a multiset) of exactly the elements whose `left` lies in that
cluster's key list; the key lists themselves only depend on the key
sequence. -/
theorem grow_filter (tol : ℚ) (htol : 0 ≤ tol) (c : Cluster) (s : List Pos)
    (hc : c.center = ((c.items.map Pos.left).sum) / ((c.items.length : ℚ)))
    (hne : c.items ≠ [])
    (hsorted : (c.items ++ s).Pairwise leLeft)
    (hmax : ∀ k ∈ c.items.map Pos.left,
      (∀ x ∈ c.items.map Pos.left, x ≤ k) → |k - c.center| ≤ tol) :
    (growCluster tol c s).map (fun cl => (cl.items : Multiset Pos))
      = (kGrow tol (c.center, c.items.map Pos.left) (s.map Pos.left)).map
          (fun K => (((c.items ++ s).filter (fun p => decide (p.left ∈ K))) : Multiset Pos)) := by
  induction s generalizing c with
  | nil =>
    simp only [growCluster, kGrow, List.map_cons, List.map_nil, List.append_nil]
    congr 1
    rw [List.filter_eq_self.mpr]
    intro p hp
    simp only [decide_eq_true_eq]
    exact List.mem_map_of_mem Pos.left hp
  | cons p ps ih =>
    have hpair := List.pairwise_append.mp hsorted
    have hcibefore : ∀ y ∈ c.items, ∀ x ∈ p :: ps, y.left ≤ x.left := hpair.2.2
    have hconssorted : (p :: ps).Pairwise leLeft := hpair.2.1
    -- if the incoming key already sits in the running cluster, the cluster
    -- does not break on it
    have hkey : ∀ y ∈ c.items, y.left = p.left → |p.left - c.center| ≤ tol := by
      intro y hy hyl
      apply hmax p.left (by rw [← hyl]; exact List.mem_map_of_mem Pos.left hy)
      intro z hz
      rcases List.mem_map.mp hz with ⟨w, hw, hwz⟩
      rw [← hwz]
      exact hcibefore w hw p (List.mem_cons_self p ps)
    rw [growCluster_cons, List.map_cons, kGrow_cons]
    by_cases h : tol < |p.left - c.center|
    · -- break: close cluster `c`, start a new one at `p`
      rw [if_pos h, if_pos h, List.map_cons, List.map_cons]
      congr 1
      · -- the closed cluster picks up exactly its own items
        rw [List.filter_append]
        rw [List.filter_eq_self.mpr (by
          intro q hq
          simp only [decide_eq_true_eq]
          exact List.mem_map_of_mem Pos.left hq)]
        rw [List.filter_eq_nil_iff.mpr (by
          intro x hx hmem
          simp only [decide_eq_true_eq] at hmem
          rcases List.mem_map.mp hmem with ⟨y, hy, hxy⟩
          have h1 : y.left ≤ p.left := hcibefore y hy p (List.mem_cons_self p ps)
          have h2 : p.left ≤ x.left := by
            rcases List.mem_cons.mp hx with h9 | h9
            · rw [h9]
            · exact (List.pairwise_cons.mp hconssorted).1 x h9
          have hxp : y.left = p.left := le_antisymm h1 (by rw [hxy]; exact h2)
          exact absurd (hkey y hy hxp) (not_le.mpr h))]
        rw [List.append_nil]
      · -- remaining clusters: induction with the fresh singleton cluster
        have hres := ih ⟨p.left, [p]⟩ (by simp) (by simp)
          (by simpa using hconssorted)
          (by
            intro k hk _
            simp only [List.map_cons, List.map_nil, List.mem_singleton] at hk
            subst hk
            simpa using htol)
        simp only [List.map_cons, List.map_nil] at hres
        rw [hres]
        apply List.map_congr_left
        intro K hK
        have hKsub := kGrow_keys_subset tol (p.left, [p.left]) (ps.map Pos.left) K hK
        congr 1
        have hfront : (c.items.filter (fun q => decide (q.left ∈ K))) = [] := by
          rw [List.filter_eq_nil_iff]
          intro y hy hmem
          simp only [decide_eq_true_eq] at hmem
          have h3 : y.left ≤ p.left := hcibefore y hy p (List.mem_cons_self p ps)
          have hyp : y.left = p.left := by
            rcases hKsub y.left hmem with h1 | h1
            · simpa using h1
            · rcases List.mem_map.mp h1 with ⟨w, hw, hwz⟩
              have h2 : p.left ≤ w.left := (List.pairwise_cons.mp hconssorted).1 w hw
              exact le_antisymm h3 (by rw [← hwz]; exact h2)
          exact absurd (hkey y hy hyp) (not_le.mpr h)
        conv_rhs => rw [List.filter_append, hfront, List.nil_append]
        rfl
    · -- no break: absorb `p` into the running cluster
      rw [if_neg h, if_neg h]
      have hlen : 1 ≤ c.items.length := List.length_pos.mpr hne
      have hcenter : (clusterAppend c p).center
          = ((c.items.map Pos.left).sum + p.left) / ((c.items.length : ℚ) + 1) := by
        simp only [clusterAppend, List.map_append, List.sum_append, List.map_cons,
          List.map_nil, List.sum_cons, List.sum_nil, List.length_append,
          List.length_cons, List.length_nil]
        push_cast
        ring_nf
      have hmax2 : ∀ k ∈ (clusterAppend c p).items.map Pos.left,
          (∀ x ∈ (clusterAppend c p).items.map Pos.left, x ≤ k)
            → |k - (clusterAppend c p).center| ≤ tol := by
        intro k hk hktop
        have hkp : k = p.left := by
          have h1 : p.left ≤ k := by
            apply hktop
            simp [clusterAppend]
          simp only [clusterAppend, List.map_append, List.map_cons, List.map_nil,
            List.mem_append, List.mem_singleton] at hk
          rcases hk with hk | hk
          · rcases List.mem_map.mp hk with ⟨w, hw, hwz⟩
            have : k ≤ p.left := by
              rw [← hwz]
              exact hcibefore w hw p (List.mem_cons_self p ps)
            exact le_antisymm this h1
          · exact hk
        subst hkp
        rw [hcenter]
        apply mean_step _ _ _ _ hlen
        rw [← hc]
        exact not_lt.mp h
      have hitems : (clusterAppend c p).items ++ ps = c.items ++ p :: ps := by
        simp [clusterAppend]
      have hres := ih (clusterAppend c p)
        (by simp [clusterAppend])
        (by simp [clusterAppend])
        (by rw [hitems]; exact hsorted)
        hmax2
      rw [hres, kAppend_seed]
      apply List.map_congr_left
      intro K _
      rw [hitems]

theorem sortByLeft_sorted (l : List Pos) : (sortByLeft l).Pairwise leLeft := by
  have h := sSort_pairwise (fun a b : Pos => decide (a.left ≤ b.left))
    (by
      intro a b c hab hbc
      simp only [decide_eq_true_eq] at hab hbc ⊢
      exact le_trans hab hbc)
    (by
      intro a b
      simp only [decide_eq_true_eq]
      exact le_total a.left b.left)
    l
  exact h.imp (fun hab => of_decide_eq_true hab)

theorem sortByLeft_perm (l : List Pos) : (sortByLeft l).Perm l :=
  sSort_perm _ l

theorem cluster_columns_eq (positions : List Pos) (tol : ℚ) :
    cluster_columns positions tol
      = match sortByLeft positions with
        | [] => []
        | p :: ps => growCluster tol ⟨p.left, [p]⟩ ps := rfl

/-- Claim C3: column clustering is order-independent.  For any two
permutations of the same label list, `cluster_columns` produces the same
clusters in the same order, where each cluster is compared as the multiset
of its member positions. -/
theorem C3_cluster_columns_perm_invariant (tol : ℚ) (htol : 0 ≤ tol)
    (l₁ l₂ : List Pos) (hperm : l₁.Perm l₂) :
    (cluster_columns l₁ tol).map (fun c => (c.items : Multiset Pos))
      = (cluster_columns l₂ tol).map (fun c => (c.items : Multiset Pos)) := by
  have hs : (sortByLeft l₁).Perm (sortByLeft l₂) :=
    (sortByLeft_perm l₁).trans (hperm.trans (sortByLeft_perm l₂).symm)
  have hsort1 := sortByLeft_sorted l₁
  have hsort2 := sortByLeft_sorted l₂
  have hkeys : (sortByLeft l₁).map Pos.left = (sortByLeft l₂).map Pos.left := by
    apply List.eq_of_perm_of_sorted (r := fun a b : ℚ => a ≤ b) (hs.map Pos.left)
    · exact List.Pairwise.map Pos.left (fun a b h => h) hsort1
    · exact List.Pairwise.map Pos.left (fun a b h => h) hsort2
  rw [cluster_columns_eq, cluster_columns_eq]
  cases h1 : sortByLeft l₁ with
  | nil =>
    have h2 : sortByLeft l₂ = [] := by
      rw [h1] at hs
      exact hs.symm.eq_nil
    rw [h2]
  | cons p ps =>
    cases h2 : sortByLeft l₂ with
    | nil =>
      rw [h1, h2] at hs
      exact absurd hs.eq_nil (by simp)
    | cons q qs =>
      rw [h1, h2] at hkeys
      rw [h1, h2] at hs
      rw [h1] at hsort1
      rw [h2] at hsort2
      dsimp only
      simp only [List.map_cons, List.cons.injEq] at hkeys
      obtain ⟨hpq, htl⟩ := hkeys
      have hres1 := grow_filter tol htol ⟨p.left, [p]⟩ ps (by simp) (by simp)
        (by simpa using hsort1)
        (by
          intro k hk _
          simp only [List.map_cons, List.map_nil, List.mem_singleton] at hk
          subst hk
          simpa using htol)
      have hres2 := grow_filter tol htol ⟨q.left, [q]⟩ qs (by simp) (by simp)
        (by simpa using hsort2)
        (by
          intro k hk _
          simp only [List.map_cons, List.map_nil, List.mem_singleton] at hk
          subst hk
          simpa using htol)
      rw [hres1, hres2]
      simp only [List.map_cons, List.map_nil]
      rw [hpq, htl]
      apply List.map_congr_left
      intro K _
      rw [Multiset.coe_eq_coe]
      exact List.Perm.filter _ (by simpa using hs)

/-- Witness for C3: a concrete two-element swap of the label list. -/
theorem C3_cluster_columns_perm_invariant_witness :
    (cluster_columns [⟨"A1", 100, 120⟩, ⟨"B1", 600, 150⟩] 90).map
        (fun c => (c.items : Multiset Pos))
      = (cluster_columns [⟨"B1", 600, 150⟩, ⟨"A1", 100, 120⟩] 90).map
        (fun c => (c.items : Multiset Pos)) :=
  C3_cluster_columns_perm_invariant 90 (by norm_num) _ _
    (List.Perm.swap (⟨"B1", 600, 150⟩ : Pos) (⟨"A1", 100, 120⟩ : Pos) [])

/-! ## `compute_crop` (scripts/generate_explanations_from_pdf.py) -/

/-- A value of the `label_positions` dict passed to `compute_crop`. -/
structure Box where
  left : ℚ
  top : ℚ
  right : ℚ
  bottom : ℚ
deriving DecidableEq, Repr

/-- `positions = [{'id': key, 'left': value['left'], 'top': value['top']} for
key, value in label_positions.items()]`; the association list keeps the dict's
insertion order. -/
def positionsOf (lp : List (String × Box)) : List Pos :=
  lp.map (fun kv => ⟨kv.1, kv.2.left, kv.2.top⟩)

/-- `min(range(len(centers)), key=lambda i: abs(centers[i] - current_x))`:
index of the first element minimising the distance to `x` (Python's `min`
keeps the first of equal minima). -/
def argminAbsAux (x : ℚ) : List ℚ → ℕ → ℕ → ℚ → ℕ
  | [], _, best, _ => best
  | c :: cs, i, best, bestv =>
    if |c - x| < bestv then argminAbsAux x cs (i + 1) i (|c - x|)
    else argminAbsAux x cs (i + 1) best bestv

def argminAbs (x : ℚ) (l : List ℚ) : ℕ :=
  match l with
  | [] => 0
  | c :: cs => argminAbsAux x cs 1 0 (|c - x|)

/-- The horizontal boundaries and column membership chosen by
`compute_crop` lines 181-195: cluster the positions, sort the centers, take
the nearest center, and use midpoints to neighbouring centers (or the image
edges) as boundaries. -/
structure ColumnChoice where
  leftB : ℚ
  rightB : ℚ
  column : List Pos
deriving Repr

def columnChoice (lp : List (String × Box)) (imageW currentX : ℚ) : ColumnChoice :=
  let positions := positionsOf lp
  let clusters := cluster_columns positions
  let centers := sSort (fun a b : ℚ => a ≤ b) (clusters.map Cluster.center)
  if centers = [] then ⟨0, imageW, positions⟩
  else
    let idx := argminAbs currentX centers
    let leftB := if idx = 0 then 0 else (centers.getD (idx - 1) 0 + centers.getD idx 0) / 2
    let rightB :=
      if idx = centers.length - 1 then imageW
      else (centers.getD idx 0 + centers.getD (idx + 1) 0) / 2
    ⟨leftB, rightB, (clusters.getD idx ⟨0, []⟩).items⟩

/-- `sorted(column_items, key=lambda item: item['top'])`. -/
def sortByTop (l : List Pos) : List Pos :=
  sSort (fun a b => a.top ≤ b.top) l

/-- The first item strictly below the target (`top` exceeding the target's
`top` by more than 4), searched after the target's own position in the
column; `none` when the target was not found (`current_index == -1`). -/
def nextItemOf (col : List Pos) (curTop : ℚ) (curIdx : Option ℕ) : Option Pos :=
  match curIdx with
  | none => none
  | some i => (col.drop (i + 1)).find? (fun item => decide (curTop + 4 < item.top))

/-- Positive vertical gaps (`> 24`) between consecutive column members. -/
def gapsOf (col : List Pos) : List ℚ :=
  ((col.zip col.tail).map (fun pr => pr.2.top - pr.1.top)).filter (fun g => decide (24 < g))

/-- `gaps.sort(); median_gap = gaps[len(gaps) // 2] if gaps else None`. -/
def medianGap (gaps : List ℚ) : Option ℚ :=
  let g := sSort (fun a b : ℚ => a ≤ b) gaps
  if g = [] then none else some (g.getD (g.length / 2) 0)

/-- `column_items[current_index - 1] if current_index > 0 else None`. -/
def prevItemOf (col : List Pos) (curIdx : Option ℕ) : Option Pos :=
  match curIdx with
  | some i => if 0 < i then col.get? (i - 1) else none
  | none => none

/-- `estimated = median_gap or (current['top'] - prev_item['top'] if
prev_item else image_h * 0.25)`; Python's `or` also rejects a zero float. -/
def estimatedOf (mg : Option ℚ) (curTop : ℚ) (prev : Option Pos) (imageH : ℚ) : ℚ :=
  let fallback :=
    match prev with
    | some pv => curTop - pv.top
    | none => imageH * 0.25
  match mg with
  | some g => if g = 0 then fallback else g
  | none => fallback

/-- The `bottom` value of `compute_crop` lines 211-224 (before the final
height floor and image clamp). -/
def cropBottomOf (top : ℚ) (nxt : Option Pos) (col : List Pos) (curIdx : Option ℕ)
    (curTop imageH : ℚ) : ℚ :=
  match nxt with
  | some item => max (top + 140) (item.top - 16)
  | none =>
    let estimated := estimatedOf (medianGap (gapsOf col)) curTop (prevItemOf col curIdx) imageH
    let maxHeight := imageH * 0.55
    min imageH (curTop + min maxHeight (max 220 (estimated * 1.35)))

/-- The target's column in reading order:
`column_items = sorted(column_items, key=lambda item: item['top'])`. -/
def cropColumn (lp : List (String × Box)) (imageW : ℚ) (current : Box) : List Pos :=
  sortByTop (columnChoice lp imageW current.left).column

/-- `current_index = next((i for i, item in enumerate(column_items) if
item['id'] == qid), -1)`, as an `Option`. -/
def cropCurIdx (qid : String) (col : List Pos) : Option ℕ :=
  col.findIdx? (fun item => item.id = qid)

/-- The `bottom` value computed by `compute_crop` for a found label. -/
def cropBottomFor (qid : String) (lp : List (String × Box)) (imageW imageH : ℚ)
    (current : Box) : ℚ :=
  let col := cropColumn lp imageW current
  let curIdx := cropCurIdx qid col
  cropBottomOf (max 0 (current.top - 24)) (nextItemOf col current.top curIdx)
    col curIdx current.top imageH

/-- `compute_crop(qid, label_positions, image_size)`: returns the
`(crop_left, int(top), crop_width, crop_height)` tuple.  The paddings are
`padding_top = 24`, `padding_bottom = 16` (inside `cropBottomOf`),
`padding_x = 18`. -/
def compute_crop (qid : String) (lp : List (String × Box)) (imageW imageH : ℚ) :
    ℚ × ℚ × ℚ × ℚ :=
  match List.lookup qid lp with
  | none => (0, 0, imageW, imageH)
  | some current =>
    let ch := columnChoice lp imageW current.left
    let top := max 0 (current.top - 24)
    let bottom := cropBottomFor qid lp imageW imageH current
    let cropLeft := max 0 (pyInt (ch.leftB - 18))
    let cropRight := min imageW (pyInt (ch.rightB + 18))
    let cropWidth := max 140 (cropRight - cropLeft)
    let cropHeight := min (imageH - top) (max 200 (pyInt (bottom - top)))
    (cropLeft, pyInt top, cropWidth, cropHeight)

/-- Claim C1 counterexample.  With all label boxes inside a 1400 × 1400
image, the crop for `B1` is `(1336, 76, 140, 496)`, whose right edge
`1336 + 140` exceeds the image width 1400 (the `max(140, ...)` width floor
is applied after clamping to the image).  And for a label near the bottom
of the page the crop for `A1` is `(0, 1366, 1400, 34)`, whose height 34 is
below the stated floor of 200. -/
theorem C1_counterexample :
    (compute_crop "B1" [("A1", ⟨1309, 100, 1319, 110⟩), ("B1", ⟨1400, 100, 1410, 110⟩)] 1400 1400
        = (1336, 76, 140, 496)
      ∧ ¬ ((1336 : ℚ) + 140 ≤ 1400))
    ∧ (compute_crop "A1" [("A1", ⟨100, 1390, 110, 1400⟩)] 1400 1400
        = (0, 1366, 1400, 34)
      ∧ ¬ ((200 : ℚ) ≤ 34)) := by
  refine ⟨⟨?_, by norm_num⟩, ⟨?_, by norm_num⟩⟩
  · have h2 : columnChoice [("A1", ⟨1309, 100, 1319, 110⟩), ("B1", ⟨1400, 100, 1410, 110⟩)] 1400 1400
        = ⟨(2709 : ℚ)/2, 1400, [⟨"B1", 1400, 100⟩]⟩ := by
      norm_num [columnChoice, cluster_columns, positionsOf, sortByLeft, sSort, sInsert, growCluster,
        clusterAppend, argminAbs, argminAbsAux, List.cons_ne_nil]
    have h3 : cropColumn [("A1", ⟨1309, 100, 1319, 110⟩), ("B1", ⟨1400, 100, 1410, 110⟩)] 1400
        ⟨1400, 100, 1410, 110⟩ = [⟨"B1", 1400, 100⟩] := by
      rw [cropColumn]
      rw [show ({ left := 1400, top := 100, right := 1410, bottom := 110 : Box}).left
        = (1400 : ℚ) from rfl]
      rw [h2]
      norm_num [sortByTop, sSort, sInsert]
    have h6 : cropBottomFor "B1" [("A1", ⟨1309, 100, 1319, 110⟩), ("B1", ⟨1400, 100, 1410, 110⟩)]
        1400 1400 ⟨1400, 100, 1410, 110⟩ = (1145 : ℚ)/2 := by
      rw [cropBottomFor, h3]
      norm_num [cropCurIdx, nextItemOf, cropBottomOf, gapsOf, medianGap, prevItemOf, estimatedOf,
        List.findIdx?, List.find?, List.filter, List.zip, List.zipWith, sSort, sInsert,
        min_def, max_def]
    have hlook : List.lookup "B1"
        [("A1", (⟨1309, 100, 1319, 110⟩ : Box)), ("B1", ⟨1400, 100, 1410, 110⟩)]
        = some ⟨1400, 100, 1410, 110⟩ := by
      simp [List.lookup]
    rw [compute_crop, hlook]
    dsimp only
    rw [h2, h6]
    norm_num [pyInt, min_def, max_def]
  · have h2 : columnChoice [("A1", ⟨100, 1390, 110, 1400⟩)] 1400 100
        = ⟨0, 1400, [⟨"A1", 100, 1390⟩]⟩ := by
      norm_num [columnChoice, cluster_columns, positionsOf, sortByLeft, sSort, sInsert, growCluster,
        clusterAppend, argminAbs, argminAbsAux, List.cons_ne_nil]
    have h3 : cropColumn [("A1", ⟨100, 1390, 110, 1400⟩)] 1400 ⟨100, 1390, 110, 1400⟩
        = [⟨"A1", 100, 1390⟩] := by
      rw [cropColumn]
      rw [show ({ left := 100, top := 1390, right := 110, bottom := 1400 : Box}).left
        = (100 : ℚ) from rfl]
      rw [h2]
      norm_num [sortByTop, sSort, sInsert]
    have h6 : cropBottomFor "A1" [("A1", ⟨100, 1390, 110, 1400⟩)] 1400 1400
        ⟨100, 1390, 110, 1400⟩ = 1400 := by
      rw [cropBottomFor, h3]
      norm_num [cropCurIdx, nextItemOf, cropBottomOf, gapsOf, medianGap, prevItemOf, estimatedOf,
        List.findIdx?, List.find?, List.filter, List.zip, List.zipWith, sSort, sInsert,
        min_def, max_def]
    have hlook : List.lookup "A1" [("A1", (⟨100, 1390, 110, 1400⟩ : Box))]
        = some ⟨100, 1390, 110, 1400⟩ := by
      simp [List.lookup]
    rw [compute_crop, hlook]
    dsimp only
    rw [h2, h6]
    norm_num [pyInt, min_def, max_def]

/-- Claim C1 amended: the crop returned by `compute_crop` always satisfies
`left ≥ 0`, `top ≥ 0` and `top + height ≤ image height`; when the question
ID has no detected label it is exactly the full page, and when it has one
the width is at least 140.  (The original claim fails: the right edge
`left + width` may exceed the image width, and the height may fall below
200 for a label near the bottom of the page — see the counterexample.) -/
theorem C1_amended_crop_bounds (qid : String) (lp : List (String × Box)) (imageW imageH : ℚ) :
    0 ≤ (compute_crop qid lp imageW imageH).1
    ∧ 0 ≤ (compute_crop qid lp imageW imageH).2.1
    ∧ (compute_crop qid lp imageW imageH).2.1 + (compute_crop qid lp imageW imageH).2.2.2 ≤ imageH
    ∧ (List.lookup qid lp = none → compute_crop qid lp imageW imageH = (0, 0, imageW, imageH))
    ∧ (∀ cur, List.lookup qid lp = some cur
        → 140 ≤ (compute_crop qid lp imageW imageH).2.2.1) := by
  cases hl : List.lookup qid lp with
  | none =>
    have hcc : compute_crop qid lp imageW imageH = (0, 0, imageW, imageH) := by
      simp only [compute_crop, hl]
    rw [hcc]
    refine ⟨le_refl _, le_refl _, by simp, fun _ => rfl, ?_⟩
    intro cur hcur
    exact absurd hcur (by simp)
  | some cur =>
    simp only [compute_crop, hl]
    have h1 : pyInt (max 0 (cur.top - 24)) ≤ max 0 (cur.top - 24) :=
      pyInt_nonneg_le _ (le_max_left _ _)
    have h2 := min_le_left (imageH - max 0 (cur.top - 24))
      (max 200 (pyInt (cropBottomFor qid lp imageW imageH cur - max 0 (cur.top - 24))))
    refine ⟨le_max_left _ _, pyInt_nonneg _ (le_max_left _ _), by linarith, ?_, ?_⟩
    · intro hnone
      exact absurd hnone (by simp)
    · intro cur2 _
      exact le_max_left 140 _

/-- Witness for C1 amended at concrete inputs: an absent label yields the
full page, and a present label yields a width of at least 140. -/
theorem C1_amended_crop_bounds_witness :
    compute_crop "A1" [] 100 100 = (0, 0, 100, 100)
    ∧ 140 ≤ (compute_crop "B1"
        [("A1", ⟨1309, 100, 1319, 110⟩), ("B1", ⟨1400, 100, 1410, 110⟩)] 1400 1400).2.2.1 :=
  ⟨(C1_amended_crop_bounds "A1" [] 100 100).2.2.2.1 rfl,
    (C1_amended_crop_bounds "B1"
        [("A1", ⟨1309, 100, 1319, 110⟩), ("B1", ⟨1400, 100, 1410, 110⟩)] 1400 1400).2.2.2.2
      ⟨1400, 100, 1410, 110⟩ (by simp [List.lookup])⟩

/-- Claim C2 counterexample.  With `A1` at top 100 and the next item `A2`
at top 230, the code's bottom is `max((100 - 24) + 140, 230 - 16) = 216`,
not `max(100 + 140, 230 - 16) = 240` as the claim states ­— the 140 floor
is added to the padded crop top (target top − 24), not to the target top;
the final crop's bottom edge is `76 + 200 = 276 ≠ 240` as well. -/
theorem C2_counterexample :
    nextItemOf (cropColumn [("A1", ⟨100, 100, 110, 110⟩), ("A2", ⟨100, 230, 110, 240⟩)] 1400
        ⟨100, 100, 110, 110⟩) 100
      (cropCurIdx "A1" (cropColumn [("A1", ⟨100, 100, 110, 110⟩), ("A2", ⟨100, 230, 110, 240⟩)]
        1400 ⟨100, 100, 110, 110⟩)) = some ⟨"A2", 100, 230⟩
    ∧ cropBottomFor "A1" [("A1", ⟨100, 100, 110, 110⟩), ("A2", ⟨100, 230, 110, 240⟩)] 1400 1400
        ⟨100, 100, 110, 110⟩ = 216
    ∧ compute_crop "A1" [("A1", ⟨100, 100, 110, 110⟩), ("A2", ⟨100, 230, 110, 240⟩)] 1400 1400
        = (0, 76, 1400, 200)
    ∧ max ((100 : ℚ) + 140) (230 - 16) = 240
    ∧ ¬ ((216 : ℚ) = 240)
    ∧ ¬ ((76 : ℚ) + 200 = 240) := by
  have h2 : columnChoice [("A1", ⟨100, 100, 110, 110⟩), ("A2", ⟨100, 230, 110, 240⟩)] 1400 100
      = ⟨0, 1400, [⟨"A1", 100, 100⟩, ⟨"A2", 100, 230⟩]⟩ := by
    norm_num [columnChoice, cluster_columns, positionsOf, sortByLeft, sSort, sInsert, growCluster,
      clusterAppend, argminAbs, argminAbsAux, List.cons_ne_nil]
  have h3 : cropColumn [("A1", ⟨100, 100, 110, 110⟩), ("A2", ⟨100, 230, 110, 240⟩)] 1400
      ⟨100, 100, 110, 110⟩ = [⟨"A1", 100, 100⟩, ⟨"A2", 100, 230⟩] := by
    rw [cropColumn]
    rw [show ({ left := 100, top := 100, right := 110, bottom := 110 : Box}).left
      = (100 : ℚ) from rfl]
    rw [h2]
    norm_num [sortByTop, sSort, sInsert]
  have h4 : nextItemOf [(⟨"A1", 100, 100⟩ : Pos), ⟨"A2", 100, 230⟩] 100
      (cropCurIdx "A1" [(⟨"A1", 100, 100⟩ : Pos), ⟨"A2", 100, 230⟩]) = some ⟨"A2", 100, 230⟩ := by
    norm_num [cropCurIdx, nextItemOf, List.findIdx?, List.find?]
  have h6 : cropBottomFor "A1" [("A1", ⟨100, 100, 110, 110⟩), ("A2", ⟨100, 230, 110, 240⟩)]
      1400 1400 ⟨100, 100, 110, 110⟩ = 216 := by
    rw [cropBottomFor, h3]
    norm_num [cropCurIdx, nextItemOf, cropBottomOf, gapsOf, medianGap, prevItemOf, estimatedOf,
      List.findIdx?, List.find?, List.filter, List.zip, List.zipWith, sSort, sInsert,
      min_def, max_def]
  have hlook : List.lookup "A1"
      [("A1", (⟨100, 100, 110, 110⟩ : Box)), ("A2", ⟨100, 230, 110, 240⟩)]
      = some ⟨100, 100, 110, 110⟩ := by
    simp [List.lookup]
  refine ⟨by rw [h3]; exact h4, h6, ?_, by norm_num [max_def], by norm_num, by norm_num⟩
  rw [compute_crop, hlook]
  dsimp only
  rw [h2, h6]
  norm_num [pyInt, min_def, max_def]

/-- Claim C2 amended: whenever the next item below the target exists, the
bottom computed by `compute_crop` equals
`max(crop_top + 140, next_top - 16)` where `crop_top = max(0, target_top -
24)` is the padded crop top (the claim had the unpadded target top). -/
theorem C2_amended_bottom_formula (qid : String) (lp : List (String × Box))
    (imageW imageH : ℚ) (cur : Box) (nxt : Pos)
    (hn : nextItemOf (cropColumn lp imageW cur) cur.top
      (cropCurIdx qid (cropColumn lp imageW cur)) = some nxt) :
    cropBottomFor qid lp imageW imageH cur
      = max (max 0 (cur.top - 24) + 140) (nxt.top - 16) := by
  unfold cropBottomFor
  dsimp only
  rw [hn]
  rfl

/-- Witness for C2 amended at the concrete two-label column. -/
theorem C2_amended_bottom_formula_witness :
    cropBottomFor "A1" [("A1", ⟨100, 100, 110, 110⟩), ("A2", ⟨100, 230, 110, 240⟩)] 1400 1400
        ⟨100, 100, 110, 110⟩
      = max (max 0 ((100 : ℚ) - 24) + 140) (230 - 16) := by
  have h2 : columnChoice [("A1", ⟨100, 100, 110, 110⟩), ("A2", ⟨100, 230, 110, 240⟩)] 1400 100
      = ⟨0, 1400, [⟨"A1", 100, 100⟩, ⟨"A2", 100, 230⟩]⟩ := by
    norm_num [columnChoice, cluster_columns, positionsOf, sortByLeft, sSort, sInsert, growCluster,
      clusterAppend, argminAbs, argminAbsAux, List.cons_ne_nil]
  exact C2_amended_bottom_formula "A1" _ 1400 1400 ⟨100, 100, 110, 110⟩ ⟨"A2", 100, 230⟩
    (by
      rw [cropColumn]
      rw [show ({ left := 100, top := 100, right := 110, bottom := 110 : Box}).left
        = (100 : ℚ) from rfl]
      rw [h2]
      norm_num [sortByTop, sSort, sInsert, cropCurIdx, nextItemOf, List.findIdx?, List.find?])

/-- Claim C4: when the target's column contains exactly the target itself,
the estimated height falls back to a quarter of the page height, is scaled
by 1.35, clamped between 220 and 55 percent of the page height, and added
to the target's top (the result being further clamped to the page). -/
theorem C4_single_member_estimate (qid : String) (lp : List (String × Box))
    (imageW imageH : ℚ) (cur : Box)
    (hcol : cropColumn lp imageW cur = [⟨qid, cur.left, cur.top⟩]) :
    estimatedOf (medianGap (gapsOf (cropColumn lp imageW cur))) cur.top
        (prevItemOf (cropColumn lp imageW cur) (cropCurIdx qid (cropColumn lp imageW cur)))
        imageH
      = imageH * 0.25
    ∧ cropBottomFor qid lp imageW imageH cur
      = min imageH (cur.top + min (imageH * 0.55) (max 220 ((imageH * 0.25) * 1.35))) := by
  rw [cropBottomFor, hcol]
  constructor
  · simp [cropCurIdx, gapsOf, medianGap, prevItemOf, estimatedOf, sSort, List.findIdx?]
  · simp [cropCurIdx, nextItemOf, cropBottomOf, gapsOf, medianGap, prevItemOf, estimatedOf,
      sSort, List.findIdx?, List.find?]

/-- Witness for C4 at a page with a single detected label. -/
theorem C4_single_member_estimate_witness :
    estimatedOf
        (medianGap (gapsOf (cropColumn [("A1", ⟨100, 300, 110, 310⟩)] 1400 ⟨100, 300, 110, 310⟩)))
        300
        (prevItemOf (cropColumn [("A1", ⟨100, 300, 110, 310⟩)] 1400 ⟨100, 300, 110, 310⟩)
          (cropCurIdx "A1" (cropColumn [("A1", ⟨100, 300, 110, 310⟩)] 1400 ⟨100, 300, 110, 310⟩)))
        1400
      = 1400 * 0.25
    ∧ cropBottomFor "A1" [("A1", ⟨100, 300, 110, 310⟩)] 1400 1400 ⟨100, 300, 110, 310⟩
      = min 1400 ((300 : ℚ) + min (1400 * 0.55) (max 220 ((1400 * 0.25) * 1.35))) :=
  C4_single_member_estimate "A1" [("A1", ⟨100, 300, 110, 310⟩)] 1400 1400 ⟨100, 300, 110, 310⟩
    (by
      rw [cropColumn]
      rw [show ({ left := 100, top := 300, right := 110, bottom := 310 : Box}).left
        = (100 : ℚ) from rfl]
      rw [show columnChoice [("A1", ⟨100, 300, 110, 310⟩)] 1400 100
        = ⟨0, 1400, [⟨"A1", 100, 300⟩]⟩ from by
        norm_num [columnChoice, cluster_columns, positionsOf, sortByLeft, sSort, sInsert,
          growCluster, clusterAppend, argminAbs, argminAbsAux, List.cons_ne_nil]]
      norm_num [sortByTop, sSort, sInsert])

/-! ## Solution extractors (scripts/extract_solutions.py,
scripts/ocr_translate_solutions.py) -/

/-- Python regex `\s` and `str.strip` whitespace, on the ASCII range. -/
def isWs (c : Char) : Bool :=
  c = ' ' || c = '\t' || c = '\n' || c = '\r' || c = '\x0b' || c = '\x0c'

/-- `str.strip()`: drop leading and trailing whitespace. -/
def stripWs (s : List Char) : List Char :=
  ((s.dropWhile isWs).reverse.dropWhile isWs).reverse

/-- `re.sub(r'\s+', ' ', s)`: each maximal whitespace run becomes one
space.  The boolean tracks whether the previous character was whitespace. -/
def collapseWsAux : Bool → List Char → List Char
  | _, [] => []
  | prevWs, c :: cs =>
    if isWs c then
      (if prevWs then collapseWsAux true cs else ' ' :: collapseWsAux true cs)
    else c :: collapseWsAux false cs

def collapseWs (s : List Char) : List Char := collapseWsAux false s

/-- The item-number → question-ID mapping shared by both solution
extractors: skip numbers outside 1..30, `A{num}` for 1..10, `B{num-10}` for
11..20, `C{num-20}` for 21..30. -/
def qidOfNum (num : ℤ) : Option String :=
  if ¬ (1 ≤ num ∧ num ≤ 30) then none
  else if num ≤ 10 then some ("A" ++ toString num)
  else if num ≤ 20 then some ("B" ++ toString (num - 10))
  else some ("C" ++ toString (num - 20))

/-- Python dict assignment `d[k] = v`: overwrite in place if the key
exists, else append at the end (dicts preserve insertion order). -/
def dictInsert {β : Type} (d : List (String × β)) (k : String) (v : β) : List (String × β) :=
  if (d.find? (fun kv => kv.1 = k)).isSome
  then d.map (fun kv => if kv.1 = k then (k, v) else kv)
  else d ++ [(k, v)]

/-- The explanation-building loop of `extract_solutions.py` main
(lines 119-133): strip, then collapse whitespace. -/
def buildExplanations (ms : List (ℤ × List Char)) : List (String × List Char) :=
  ms.foldl (fun d m =>
    match qidOfNum m.1 with
    | none => d
    | some qid => dictInsert d qid (collapseWs (stripWs m.2))) []

/-- The explanation-building loop of `ocr_translate_solutions.py`
`extract_solutions` (lines 76-90): collapse whitespace, then strip. -/
def buildExplanationsOcr (ms : List (ℤ × List Char)) : List (String × List Char) :=
  ms.foldl (fun d m =>
    match qidOfNum m.1 with
    | none => d
    | some qid => dictInsert d qid (stripWs (collapseWs m.2))) []

theorem buildExplanations_skip (f : List (String × List Char) → ℤ × List Char
      → List (String × List Char))
    (hf : ∀ d n s, qidOfNum n = none → f d (n, s) = d)
    (pre post : List (ℤ × List Char)) (n : ℤ) (s : List Char) (hnone : qidOfNum n = none) :
    (pre ++ (n, s) :: post).foldl f [] = (pre ++ post).foldl f [] := by
  rw [List.foldl_append, List.foldl_append, List.foldl_cons, hf _ n s hnone]

/-- Claim C5: in both solution extractors, matched item numbers 1..10 map
to `A{n}`, 11..20 to `B{n-10}`, 21..30 to `C{n-20}` (in particular 1, 10,
11, 20, 21, 30 map to `A1`, `A10`, `B1`, `B10`, `C1`, `C10`), and numbers
outside 1..30 are discarded: they produce no entry in the mapping built by
either script's loop. -/
theorem C5_item_number_mapping :
    (∀ n : ℤ, 1 ≤ n → n ≤ 10 → qidOfNum n = some ("A" ++ toString n))
    ∧ (∀ n : ℤ, 11 ≤ n → n ≤ 20 → qidOfNum n = some ("B" ++ toString (n - 10)))
    ∧ (∀ n : ℤ, 21 ≤ n → n ≤ 30 → qidOfNum n = some ("C" ++ toString (n - 20)))
    ∧ (∀ n : ℤ, n < 1 ∨ 30 < n → qidOfNum n = none)
    ∧ (qidOfNum 1 = some "A1" ∧ qidOfNum 10 = some "A10" ∧ qidOfNum 11 = some "B1"
      ∧ qidOfNum 20 = some "B10" ∧ qidOfNum 21 = some "C1" ∧ qidOfNum 30 = some "C10")
    ∧ (∀ pre post : List (ℤ × List Char), ∀ n s, qidOfNum n = none →
        buildExplanations (pre ++ (n, s) :: post) = buildExplanations (pre ++ post))
    ∧ (∀ pre post : List (ℤ × List Char), ∀ n s, qidOfNum n = none →
        buildExplanationsOcr (pre ++ (n, s) :: post) = buildExplanationsOcr (pre ++ post)) := by
  refine ⟨?_, ?_, ?_, ?_, ?_, ?_, ?_⟩
  · intro n h1 h2
    rw [qidOfNum, if_neg (by omega), if_pos h2]
  · intro n h1 h2
    rw [qidOfNum, if_neg (by omega), if_neg (by omega), if_pos h2]
  · intro n h1 h2
    rw [qidOfNum, if_neg (by omega), if_neg (by omega), if_neg (by omega)]
  · intro n h
    rw [qidOfNum, if_pos (by omega)]
  · refine ⟨?_, ?_, ?_, ?_, ?_, ?_⟩ <;> decide
  · intro pre post n s hnone
    unfold buildExplanations
    exact buildExplanations_skip _ (by intro d n2 s2 h2; simp [h2]) pre post n s hnone
  · intro pre post n s hnone
    unfold buildExplanationsOcr
    exact buildExplanations_skip _ (by intro d n2 s2 h2; simp [h2]) pre post n s hnone

/-- Witness for C5 at concrete item numbers and a concrete skipped match. -/
theorem C5_item_number_mapping_witness :
    qidOfNum 5 = some ("A" ++ toString (5 : ℤ))
    ∧ qidOfNum 0 = none
    ∧ buildExplanations ([] ++ ((31 : ℤ), ('x' :: [])) :: []) = buildExplanations ([] ++ [])
    ∧ buildExplanationsOcr ([] ++ ((0 : ℤ), []) :: []) = buildExplanationsOcr ([] ++ []) :=
  ⟨C5_item_number_mapping.1 5 (by norm_num) (by norm_num),
    C5_item_number_mapping.2.2.2.1 0 (Or.inl (by norm_num)),
    C5_item_number_mapping.2.2.2.2.2.1 [] [] 31 ('x' :: [])
      (C5_item_number_mapping.2.2.2.1 31 (Or.inr (by norm_num))),
    C5_item_number_mapping.2.2.2.2.2.2 [] [] 0 []
      (C5_item_number_mapping.2.2.2.1 0 (Or.inl (by norm_num)))⟩

/-! ## CLI argument and input-file handling -/

/-- The years with an `ANSWER_KEYS` entry in
`generate_explanations_from_pdf.py`. -/
def answerKeyYears : List String := ["2025", "2024", "2023"]

/-- The early-exit prefix of `extract_solutions.py` `main` (lines 68-77):
`some (message, exit_code)` when the script exits before doing any work,
`none` when it proceeds.  `argv` includes the script name at index 0. -/
def extractSolutionsEntry (argv : List String) (fileExists : String → Bool) :
    Option (String × ℕ) :=
  if argv.length < 3 then
    some ("Usage: python3 scripts/extract_solutions.py /path/to/Broschuere-YYYYB.pdf YYYY", 1)
  else if fileExists (argv.getD 1 "") = false then
    some ("File not found: " ++ argv.getD 1 "", 1)
  else none

/-- The early-exit prefix of `ocr_translate_solutions.py` `main`
(lines 145-154). -/
def ocrTranslateEntry (argv : List String) (fileExists : String → Bool) :
    Option (String × ℕ) :=
  if argv.length < 3 then
    some ("Usage: python3 scripts/ocr_translate_solutions.py /path/to/Broschuere-YYYYB.pdf YYYY", 1)
  else if fileExists (argv.getD 1 "") = false then
    some ("File not found: " ++ argv.getD 1 "", 1)
  else none

/-- The early-exit prefix of `generate_explanations_from_pdf.py` `main`
(lines 399-412), which additionally requires an answer key for the year. -/
def generateExplanationsEntry (argv : List String) (fileExists : String → Bool) :
    Option (String × ℕ) :=
  if argv.length < 3 then
    some ("Usage: python3 scripts/generate_explanations_from_pdf.py /path/to/kangaroo-YYYY.pdf YYYY", 1)
  else if fileExists (argv.getD 1 "") = false then
    some ("File not found: " ++ argv.getD 1 "", 1)
  else if (argv.getD 2 "") ∈ answerKeyYears then none
  else some ("No answer key for year " ++ argv.getD 2 "", 1)

/-- The fixed `PDFS` table of `extract_label_positions.py`, relative to the
repository root. -/
def pdfsTable (root : String) : List (String × String) :=
  [("2025", root ++ "/public/kangaroo-2025/kangaroo-2025.pdf"),
   ("2024", root ++ "/public/kangaroo-2024/kangaroo-2024.pdf"),
   ("2023", root ++ "/public/kangaroo-2023/kangaroo-2023.pdf")]

/-- `extract_label_positions.py` `main` (lines 81-93): it reads no
command-line arguments at all; a missing file is skipped with a console
message and the loop continues.  The pair holds the skip messages and the
process exit status; extraction of the files that do exist is out of scope
here, and with every file missing the loop does nothing else, so the
script ends normally with status 0. -/
def extractLabelPositionsSkips (root : String) (fileExists : String → Bool) :
    List String × ℕ :=
  (((pdfsTable root).filter (fun p => fileExists p.2 = false)).map
    (fun p => "Skipping missing file: " ++ p.2), 0)

/-- Claim C7 counterexample: `extract_label_positions.py` is not invoked
with `<pdf-path> <year>` arguments, and when its input files do not exist
it prints skip messages and exits with status 0, not a non-zero status. -/
theorem C7_counterexample :
    extractLabelPositionsSkips "ROOT" (fun _ => false)
      = (["Skipping missing file: ROOT/public/kangaroo-2025/kangaroo-2025.pdf",
          "Skipping missing file: ROOT/public/kangaroo-2024/kangaroo-2024.pdf",
          "Skipping missing file: ROOT/public/kangaroo-2023/kangaroo-2023.pdf"], 0)
    ∧ (extractLabelPositionsSkips "ROOT" (fun _ => false)).2 = 0 := by
  constructor
  · rfl
  · rfl

/-- Claim C7 amended: the three scripts that do take `<pdf-path> <year>`
arguments (`extract_solutions.py`, `ocr_translate_solutions.py`,
`generate_explanations_from_pdf.py`) print a usage or file-not-found
message and exit 1 on a missing argument or a missing input file, while
`extract_label_positions.py` takes no arguments and skips missing input
files, finishing with exit status 0. -/
theorem C7_amended_cli_checks :
    (∀ argv fe, argv.length < 3 → ∃ msg, extractSolutionsEntry argv fe = some (msg, 1))
    ∧ (∀ argv fe, argv.length < 3 → ∃ msg, ocrTranslateEntry argv fe = some (msg, 1))
    ∧ (∀ argv fe, argv.length < 3 → ∃ msg, generateExplanationsEntry argv fe = some (msg, 1))
    ∧ (∀ argv fe, ¬ argv.length < 3 → fe (argv.getD 1 "") = false →
        extractSolutionsEntry argv fe = some ("File not found: " ++ argv.getD 1 "", 1))
    ∧ (∀ argv fe, ¬ argv.length < 3 → fe (argv.getD 1 "") = false →
        ocrTranslateEntry argv fe = some ("File not found: " ++ argv.getD 1 "", 1))
    ∧ (∀ argv fe, ¬ argv.length < 3 → fe (argv.getD 1 "") = false →
        generateExplanationsEntry argv fe = some ("File not found: " ++ argv.getD 1 "", 1))
    ∧ (∀ root fe, (extractLabelPositionsSkips root fe).2 = 0) := by
  refine ⟨?_, ?_, ?_, ?_, ?_, ?_, ?_⟩
  · intro argv fe h
    exact ⟨_, by rw [extractSolutionsEntry, if_pos h]⟩
  · intro argv fe h
    exact ⟨_, by rw [ocrTranslateEntry, if_pos h]⟩
  · intro argv fe h
    exact ⟨_, by rw [generateExplanationsEntry, if_pos h]⟩
  · intro argv fe h hf
    rw [extractSolutionsEntry, if_neg h, if_pos hf]
  · intro argv fe h hf
    rw [ocrTranslateEntry, if_neg h, if_pos hf]
  · intro argv fe h hf
    rw [generateExplanationsEntry, if_neg h, if_pos hf]
  · intro root fe
    rfl

/-- Witness for C7 amended at concrete invocations. -/
theorem C7_amended_cli_checks_witness :
    (∃ msg, extractSolutionsEntry ["scripts/extract_solutions.py"] (fun _ => true)
      = some (msg, 1))
    ∧ ocrTranslateEntry ["scripts/ocr_translate_solutions.py", "missing.pdf", "2025"]
        (fun _ => false) = some ("File not found: missing.pdf", 1)
    ∧ (extractLabelPositionsSkips "ROOT" (fun _ => false)).2 = 0 :=
  ⟨C7_amended_cli_checks.1 ["scripts/extract_solutions.py"] (fun _ => true) (by norm_num),
    C7_amended_cli_checks.2.2.2.2.1 ["scripts/ocr_translate_solutions.py", "missing.pdf", "2025"]
      (fun _ => false) (by norm_num) rfl,
    C7_amended_cli_checks.2.2.2.2.2.2 "ROOT" (fun _ => false)⟩

/-! ## Remote-explanation fallback (generate_explanations_from_pdf.py,
main loop lines 445-459) -/

/-- A parsed explanation dict; only the fields the loop inspects are
modelled. -/
structure Explanation where
  hint : Option String
  story : Option String
deriving DecidableEq, Repr

/-- `not explanation.get('story', '').strip()`: the story is missing,
empty, or whitespace-only. -/
def storyEmptyB (e : Explanation) : Bool :=
  (stripWs ((e.story.getD "").toList)).isEmpty

/-- One iteration of the per-question loop in `main`: the image request
(`r1`), one retry on failure (`r2`), then the story-emptiness check and the
single OCR text-fallback request (`tf`).  Returns the recorded explanation
(`none` when the script dies on an uncaught exception) and the number of
text-fallback requests issued. -/
def processQid (r1 r2 tf : Except Unit Explanation) : Option Explanation × ℕ :=
  let img : Option Explanation :=
    match r1 with
    | .ok e => some e
    | .error _ => match r2 with | .ok e => some e | .error _ => none
  match img with
  | none => (none, 0)
  | some e =>
    if storyEmptyB e then
      (match tf with | .ok t => some t | .error _ => none, 1)
    else (some e, 0)

/-- Claim C8: when the initial image-based response parses but its `story`
is empty (or missing or whitespace-only), exactly one text-fallback request
is issued and its result is what gets recorded; when the story is
non-empty, no fallback is issued and the image response is recorded. -/
theorem C8_empty_story_fallback (r2 tf : Except Unit Explanation) :
    (∀ e, storyEmptyB e = true → (processQid (Except.ok e) r2 tf).2 = 1)
    ∧ (∀ e t, storyEmptyB e = true → tf = Except.ok t
        → processQid (Except.ok e) r2 tf = (some t, 1))
    ∧ (∀ e, storyEmptyB e = true → tf = Except.error ()
        → processQid (Except.ok e) r2 tf = (none, 1))
    ∧ (∀ e, storyEmptyB e = false → processQid (Except.ok e) r2 tf = (some e, 0)) := by
  refine ⟨?_, ?_, ?_, ?_⟩
  · intro e he
    cases tf <;> simp [processQid, he]
  · intro e t he ht
    simp [processQid, he, ht]
  · intro e he ht
    simp [processQid, he, ht]
  · intro e he
    simp [processQid, he]

/-- Witness for C8 at a whitespace-only story and a successful fallback. -/
theorem C8_empty_story_fallback_witness :
    processQid (Except.ok ⟨some "hint", some "  "⟩) (Except.error ())
        (Except.ok ⟨some "hint2", some "story2"⟩)
      = (some ⟨some "hint2", some "story2"⟩, 1) :=
  (C8_empty_story_fallback (Except.error ()) (Except.ok ⟨some "hint2", some "story2"⟩)).2.1
    ⟨some "hint", some "  "⟩ ⟨some "hint2", some "story2"⟩ (by decide) rfl

/-! ## Label-position extraction (scripts/extract_label_positions.py and
`extract_label_positions` in scripts/generate_explanations_from_pdf.py) -/

/-- A word box parsed from `pdftotext -bbox` output. -/
structure Word where
  xMin : ℚ
  yMin : ℚ
  xMax : ℚ
  yMax : ℚ
  text : String
deriving DecidableEq, Repr

/-- `re.sub(r'[^A-Za-z0-9]', '', text)` — no case change — from
`extract_label_positions.py` line 64. -/
def cleanedToken (s : String) : String :=
  ⟨s.toList.filter (fun c => c.isAlpha || c.isDigit)⟩

/-- `LABEL_PATTERN = re.compile(r'^[ABC](10|[1-9])$')` as a predicate on
the token's characters. -/
def labelPattern (s : String) : Bool :=
  match s.toList with
  | [c, d] => (c == 'A' || c == 'B' || c == 'C') && ('1' ≤ d && d ≤ '9')
  | [c, d1, d0] => (c == 'A' || c == 'B' || c == 'C') && d1 == '1' && d0 == '0'
  | _ => false

/-- `VALID_IDS`, built as in the script from the three comprehensions. -/
def validIds : List String :=
  ((List.range 10).map (fun i => "A" ++ toString (i + 1)))
    ++ ((List.range 10).map (fun i => "B" ++ toString (i + 1)))
    ++ ((List.range 10).map (fun i => "C" ++ toString (i + 1)))

/-- Occurrence collection of `extract_for_pdf` (lines 62-69): clean each
word's token, keep it only if it matches `LABEL_PATTERN` and is a valid ID,
recording `(label, x1, y1)`. -/
def pageOccurrences (ws : List Word) : List (String × ℚ × ℚ) :=
  ws.filterMap (fun w =>
    let cleaned := cleanedToken w.text
    if labelPattern cleaned && decide (cleaned ∈ validIds) then
      some (cleaned, w.xMin, w.yMin)
    else none)

/-- One step of `occurrences.setdefault(cleaned, []).append((x1, y1))`:
append to the label's list if present, else add the label at the end. -/
def gblStep (d : List (String × List (ℚ × ℚ))) (o : String × ℚ × ℚ) :
    List (String × List (ℚ × ℚ)) :=
  if (d.find? (fun kv => kv.1 = o.1)).isSome then
    d.map (fun kv => if kv.1 = o.1 then (kv.1, kv.2 ++ [(o.2.1, o.2.2)]) else kv)
  else d ++ [(o.1, [(o.2.1, o.2.2)])]

/-- Group the occurrences per label, labels in first-appearance order. -/
def groupByLabel (occs : List (String × ℚ × ℚ)) : List (String × List (ℚ × ℚ)) :=
  occs.foldl gblStep []

/-- The tuple order used by `coords.sort(key=lambda value: (value[0],
value[1]))`. -/
def lexLe (a b : ℚ × ℚ) : Bool :=
  decide (a.1 < b.1) || (decide (a.1 = b.1) && decide (a.2 ≤ b.2))

/-- The per-page labels dict of `extract_for_pdf` (lines 71-74): for each
label, sort its occurrences by `(x, y)` and keep the first. -/
def pageLabels (ws : List Word) : List (String × (ℚ × ℚ)) :=
  (groupByLabel (pageOccurrences ws)).map (fun kv =>
    (kv.1, (sSort lexLe kv.2).headD (0, 0)))

/-- The page loop of `extract_for_pdf` (lines 35-76), pages numbered from
`pg`: a page contributes an entry only when its labels dict is non-empty
(`if labels:`). -/
def extractForPdfAux (pg : ℕ) : List (List Word) → List (ℕ × List (String × (ℚ × ℚ)))
  | [] => []
  | ws :: rest =>
    (if (pageLabels ws).isEmpty then [] else [(pg, pageLabels ws)])
      ++ extractForPdfAux (pg + 1) rest

/-- The `labels` part of `extract_for_pdf`'s result, over the per-page word
lists. -/
def extract_for_pdf (pages : List (List Word)) : List (ℕ × List (String × (ℚ × ℚ))) :=
  extractForPdfAux 1 pages

/-- A text line accumulated by `extract_label_positions`
(scripts/generate_explanations_from_pdf.py lines 121-129). -/
structure TextLine where
  y : ℚ
  words : List Word
deriving DecidableEq, Repr

/-- One step of the line grouping: the word joins the first line whose
running `y` is within 2.5 of its `yMin` (that line's `y` becoming the
average), else opens a new line at the end of the list. -/
def addWord : List TextLine → Word → List TextLine
  | [], w => [⟨w.yMin, [w]⟩]
  | l :: ls, w =>
    if |l.y - w.yMin| ≤ 5/2 then ⟨(l.y + w.yMin) / 2, l.words ++ [w]⟩ :: ls
    else l :: addWord ls w

/-- `normalize_token` (lines 113-116): uppercase, strip non-alphanumerics,
replace `O` by `0`. -/
def normalizeToken (s : String) : String :=
  ⟨((s.toList.map Char.toUpper).filter (fun c => c.isAlpha || c.isDigit)).map
    (fun c => if c = 'O' then '0' else c)⟩

/-- `{str(n) for n in range(1, 11)}`. -/
def digitTokens : List String := (List.range 10).map (fun n => toString (n + 1))

/-- The scan over one sorted line (lines 133-150): each word may yield a
detection `(label, left, top, right, bottom)`, either directly or by
pairing an `A`/`B`/`C` token with the next word's number token; the label
must be in the page's label set. -/
def lineDetections (labelSet : List String) : List Word → List (String × ℚ × ℚ × ℚ × ℚ)
  | [] => []
  | w :: rest =>
    let token := normalizeToken w.text
    let det : Option (String × ℚ × ℚ × ℚ × ℚ) :=
      if token ∈ labelSet then some (token, w.xMin, w.yMin, w.xMax, w.yMax)
      else if token ∈ ["A", "B", "C"] then
        match rest with
        | [] => none
        | w2 :: _ =>
          let nt := normalizeToken w2.text
          if nt ∈ digitTokens then
            some (token ++ nt, min w.xMin w2.xMin, min w.yMin w2.yMin,
              max w.xMax w2.xMax, max w.yMax w2.yMax)
          else none
      else none
    (match det with
     | some d => if d.1 ∈ labelSet then [d] else []
     | none => []) ++ lineDetections labelSet rest

/-- The retention rule (lines 151-159): a detection is stored scaled; it
replaces an existing box only when its raw (unscaled) `left` is strictly
below the stored (scaled) `left`. -/
def upsertPosition (sx sy : ℚ) (ps : List (String × Box)) (d : String × ℚ × ℚ × ℚ × ℚ) :
    List (String × Box) :=
  match ps.find? (fun kv => kv.1 = d.1) with
  | none => ps ++ [(d.1, ⟨d.2.1 * sx, d.2.2.1 * sy, d.2.2.2.1 * sx, d.2.2.2.2 * sy⟩)]
  | some ex =>
    if d.2.1 < ex.2.left then
      ps.map (fun kv =>
        if kv.1 = d.1 then (d.1, ⟨d.2.1 * sx, d.2.2.1 * sy, d.2.2.2.1 * sx, d.2.2.2.2 * sy⟩)
        else kv)
    else ps

/-- `extract_label_positions(words, question_ids, scale_x, scale_y)` from
`generate_explanations_from_pdf.py` (lines 119-160): group words into
lines, sort each line by `xMin`, scan for detections, and fold them through
the retention rule. -/
def extract_label_positions (words : List Word) (questionIds : List String) (sx sy : ℚ) :
    List (String × Box) :=
  (((words.foldl addWord []).map (fun l =>
    lineDetections questionIds (sSort (fun a b => a.xMin ≤ b.xMin) l.words))).flatten).foldl
    (upsertPosition sx sy) []

/-- The head of a stably sorted non-empty list is a minimum with respect to
the (total, transitive) comparison. -/
theorem sSort_head_min {α : Type} (le : α → α → Bool)
    (htrans : ∀ a b c, le a b = true → le b c = true → le a c = true)
    (htot : ∀ a b, le a b = true ∨ le b a = true)
    (l : List α) (hne : l ≠ []) (d : α) :
    (sSort le l).headD d ∈ l ∧ ∀ y ∈ l, le ((sSort le l).headD d) y = true := by
  cases h : sSort le l with
  | nil =>
    have := sSort_perm le l
    rw [h] at this
    exact absurd this.symm.eq_nil hne
  | cons a t =>
    have hperm := sSort_perm le l
    rw [h] at hperm
    have hpw := sSort_pairwise le htrans htot l
    rw [h] at hpw
    constructor
    · exact hperm.subset (List.mem_cons_self a t)
    · intro y hy
      have hy2 : y ∈ a :: t := hperm.symm.subset hy
      rcases List.mem_cons.mp hy2 with rfl | hy2
      · rcases htot y y with h1 | h1 <;> exact h1
      · exact (List.pairwise_cons.mp hpw).1 y hy2

theorem lexLe_trans (a b c : ℚ × ℚ) (hab : lexLe a b = true) (hbc : lexLe b c = true) :
    lexLe a c = true := by
  simp only [lexLe, Bool.or_eq_true, Bool.and_eq_true, decide_eq_true_eq] at hab hbc ⊢
  rcases hab with h1 | ⟨h1, h2⟩ <;> rcases hbc with h3 | ⟨h3, h4⟩
  · exact Or.inl (lt_trans h1 h3)
  · exact Or.inl (h3 ▸ h1)
  · exact Or.inl (h1 ▸ h3)
  · exact Or.inr ⟨h1.trans h3, h2.trans h4⟩

theorem lexLe_total (a b : ℚ × ℚ) : lexLe a b = true ∨ lexLe b a = true := by
  simp only [lexLe, Bool.or_eq_true, Bool.and_eq_true, decide_eq_true_eq]
  rcases lt_trichotomy a.1 b.1 with h | h | h
  · exact Or.inl (Or.inl h)
  · rcases le_total a.2 b.2 with h2 | h2
    · exact Or.inl (Or.inr ⟨h, h2⟩)
    · exact Or.inr (Or.inr ⟨h.symm, h2⟩)
  · exact Or.inr (Or.inl h)

theorem gblStep_pairwise (acc : List (String × List (ℚ × ℚ))) (o : String × ℚ × ℚ)
    (h : acc.Pairwise (fun a b => a.1 ≠ b.1)) :
    (gblStep acc o).Pairwise (fun a b => a.1 ≠ b.1) := by
  unfold gblStep
  have hkey : ∀ kv : String × List (ℚ × ℚ),
      ((if kv.1 = o.1 then (kv.1, kv.2 ++ [(o.2.1, o.2.2)]) else kv)).1 = kv.1 := by
    intro kv
    by_cases hk : kv.1 = o.1 <;> simp [hk]
  by_cases hf : (acc.find? (fun kv => kv.1 = o.1)).isSome
  · rw [if_pos hf]
    refine List.Pairwise.map _ ?_ h
    intro a b hab
    rw [hkey a, hkey b]
    exact hab
  · rw [if_neg hf]
    rw [List.pairwise_append]
    refine ⟨h, by simp, ?_⟩
    intro a ha b hb
    simp only [List.mem_singleton] at hb
    subst hb
    intro hcontra
    exact hf (List.find?_isSome.mpr ⟨a, ha, by simp [hcontra]⟩)

theorem gblStep_cases (acc : List (String × List (ℚ × ℚ))) (o : String × ℚ × ℚ) :
    ∀ lc ∈ gblStep acc o,
      lc ∈ acc
      ∨ (∃ kv ∈ acc, kv.1 = o.1 ∧ lc = (kv.1, kv.2 ++ [(o.2.1, o.2.2)]))
      ∨ lc = (o.1, [(o.2.1, o.2.2)]) := by
  intro lc hlc
  unfold gblStep at hlc
  by_cases hf : (acc.find? (fun kv => kv.1 = o.1)).isSome
  · rw [if_pos hf] at hlc
    rcases List.mem_map.mp hlc with ⟨kv, hkv, hkveq⟩
    by_cases hk : kv.1 = o.1
    · rw [if_pos hk] at hkveq
      exact Or.inr (Or.inl ⟨kv, hkv, hk, hkveq.symm⟩)
    · rw [if_neg hk] at hkveq
      exact Or.inl (hkveq ▸ hkv)
  · rw [if_neg hf] at hlc
    rcases List.mem_append.mp hlc with h1 | h1
    · exact Or.inl h1
    · simp only [List.mem_singleton] at h1
      exact Or.inr (Or.inr h1)

theorem gblStep_persist (acc : List (String × List (ℚ × ℚ))) (o : String × ℚ × ℚ) :
    ∀ kv ∈ acc, ∃ lc ∈ gblStep acc o, lc.1 = kv.1 ∧ ∀ c ∈ kv.2, c ∈ lc.2 := by
  intro kv hkv
  unfold gblStep
  by_cases hf : (acc.find? (fun kv => kv.1 = o.1)).isSome
  · rw [if_pos hf]
    by_cases hk : kv.1 = o.1
    · refine ⟨(kv.1, kv.2 ++ [(o.2.1, o.2.2)]), ?_, rfl, ?_⟩
      · apply List.mem_map.mpr
        exact ⟨kv, hkv, by rw [if_pos hk]⟩
      · intro c hc
        exact List.mem_append_left _ hc
    · refine ⟨kv, ?_, rfl, fun c hc => hc⟩
      apply List.mem_map.mpr
      exact ⟨kv, hkv, by rw [if_neg hk]⟩
  · rw [if_neg hf]
    exact ⟨kv, List.mem_append_left _ hkv, rfl, fun c hc => hc⟩

theorem gblStep_covers (acc : List (String × List (ℚ × ℚ))) (o : String × ℚ × ℚ) :
    ∃ lc ∈ gblStep acc o, lc.1 = o.1 ∧ (o.2.1, o.2.2) ∈ lc.2 := by
  unfold gblStep
  by_cases hf : (acc.find? (fun kv => kv.1 = o.1)).isSome
  · rw [if_pos hf]
    have hex : ∃ coords, (o.1, coords) ∈ acc := by simpa using hf
    rcases hex with ⟨coords, hkv⟩
    refine ⟨(o.1, coords ++ [(o.2.1, o.2.2)]), ?_, rfl, by simp⟩
    apply List.mem_map.mpr
    exact ⟨(o.1, coords), hkv, by simp⟩
  · rw [if_neg hf]
    exact ⟨(o.1, [(o.2.1, o.2.2)]), List.mem_append_right _ (by simp), rfl, by simp⟩

theorem gblStep_ne_nil (acc : List (String × List (ℚ × ℚ))) (o : String × ℚ × ℚ)
    (h : ∀ kv ∈ acc, kv.2 ≠ []) :
    ∀ lc ∈ gblStep acc o, lc.2 ≠ [] := by
  intro lc hlc
  rcases gblStep_cases acc o lc hlc with h1 | ⟨kv, hkv, _, h1⟩ | h1
  · exact h lc h1
  · rw [h1]
    simp
  · rw [h1]
    simp

/-- Invariant of the grouping fold: keys stay distinct, every collected
coordinate comes from the seed or from a matching occurrence, seed entries
persist (their coordinates included), every occurrence is collected under
its label, and non-emptiness of the value lists is preserved. -/
theorem gbl_fold_inv (occs : List (String × ℚ × ℚ)) :
    ∀ acc : List (String × List (ℚ × ℚ)),
    acc.Pairwise (fun a b => a.1 ≠ b.1) →
    (occs.foldl gblStep acc).Pairwise (fun a b => a.1 ≠ b.1)
    ∧ (∀ lc ∈ occs.foldl gblStep acc, ∀ c ∈ lc.2,
        (∃ lc0 ∈ acc, lc0.1 = lc.1 ∧ c ∈ lc0.2) ∨ (lc.1, c.1, c.2) ∈ occs)
    ∧ (∀ kv ∈ acc, ∃ lc ∈ occs.foldl gblStep acc, lc.1 = kv.1 ∧ ∀ c ∈ kv.2, c ∈ lc.2)
    ∧ (∀ o ∈ occs, ∃ lc ∈ occs.foldl gblStep acc, lc.1 = o.1 ∧ (o.2.1, o.2.2) ∈ lc.2)
    ∧ ((∀ kv ∈ acc, kv.2 ≠ []) → ∀ lc ∈ occs.foldl gblStep acc, lc.2 ≠ []) := by
  induction occs with
  | nil =>
    intro acc hacc
    refine ⟨hacc, ?_, ?_, ?_, ?_⟩
    · intro lc hlc c hc
      exact Or.inl ⟨lc, hlc, rfl, hc⟩
    · intro kv hkv
      exact ⟨kv, hkv, rfl, fun c hc => hc⟩
    · intro o ho
      cases ho
    · intro h lc hlc
      exact h lc hlc
  | cons o os ih =>
    intro acc hacc
    have hacc2 := gblStep_pairwise acc o hacc
    obtain ⟨ih1, ih2, ih3, ih4, ih5⟩ := ih (gblStep acc o) hacc2
    rw [List.foldl_cons]
    refine ⟨ih1, ?_, ?_, ?_, ?_⟩
    · intro lc hlc c hc
      rcases ih2 lc hlc c hc with ⟨lc0, hlc0, hkey, hc0⟩ | h1
      · rcases gblStep_cases acc o lc0 hlc0 with h2 | ⟨kv, hkv, hkvo, h2⟩ | h2
        · exact Or.inl ⟨lc0, h2, hkey, hc0⟩
        · rw [h2] at hc0 hkey
          rcases List.mem_append.mp hc0 with h3 | h3
          · exact Or.inl ⟨kv, hkv, hkey, h3⟩
          · simp only [List.mem_singleton] at h3
            subst h3
            refine Or.inr (List.mem_cons.mpr (Or.inl ?_))
            rw [← hkey, hkvo]
        · rw [h2] at hc0 hkey
          simp only [List.mem_singleton] at hc0
          subst hc0
          refine Or.inr (List.mem_cons.mpr (Or.inl ?_))
          rw [← hkey]
      · exact Or.inr (List.mem_cons_of_mem o h1)
    · intro kv hkv
      rcases gblStep_persist acc o kv hkv with ⟨lc2, hlc2, hkey2, hsub2⟩
      rcases ih3 lc2 hlc2 with ⟨lc3, hlc3, hkey3, hsub3⟩
      exact ⟨lc3, hlc3, hkey3.trans hkey2, fun c hc => hsub3 c (hsub2 c hc)⟩
    · intro o2 ho2
      rcases List.mem_cons.mp ho2 with rfl | ho2
      · rcases gblStep_covers acc o2 with ⟨lc2, hlc2, hkey2, hmem2⟩
        rcases ih3 lc2 hlc2 with ⟨lc3, hlc3, hkey3, hsub3⟩
        exact ⟨lc3, hlc3, hkey3.trans hkey2, hsub3 _ hmem2⟩
      · exact ih4 o2 ho2
    · intro h lc hlc
      exact ih5 (gblStep_ne_nil acc o h) lc hlc

/-- The grouped occurrences: distinct labels, coordinates exactly the
occurrences carrying that label (both inclusions), no empty groups. -/
theorem groupByLabel_spec (occs : List (String × ℚ × ℚ)) :
    (groupByLabel occs).Pairwise (fun a b => a.1 ≠ b.1)
    ∧ (∀ lc ∈ groupByLabel occs, ∀ c ∈ lc.2, (lc.1, c.1, c.2) ∈ occs)
    ∧ (∀ o ∈ occs, ∃ lc ∈ groupByLabel occs, lc.1 = o.1 ∧ (o.2.1, o.2.2) ∈ lc.2)
    ∧ (∀ lc ∈ groupByLabel occs, lc.2 ≠ []) := by
  obtain ⟨h1, h2, _, h4, h5⟩ := gbl_fold_inv occs [] (by simp)
  refine ⟨h1, ?_, h4, h5 (by simp)⟩
  intro lc hlc c hc
  rcases h2 lc hlc c hc with ⟨lc0, hlc0, _⟩ | h
  · cases hlc0
  · exact h

/-- In a list with pairwise-distinct keys, an entry is determined by its
key. -/
theorem pairwise_key_unique {β : Type} (l : List (String × β))
    (h : l.Pairwise (fun a b => a.1 ≠ b.1)) :
    ∀ a ∈ l, ∀ b ∈ l, a.1 = b.1 → a = b := by
  induction l with
  | nil =>
    intro a ha
    cases ha
  | cons x xs ih =>
    rcases List.pairwise_cons.mp h with ⟨hx, hxs⟩
    intro a ha b hb hab
    rcases List.mem_cons.mp ha with ha1 | ha1 <;> rcases List.mem_cons.mp hb with hb1 | hb1
    · rw [ha1, hb1]
    · rw [ha1] at hab
      exact absurd hab (hx b hb1)
    · rw [hb1] at hab
      exact absurd hab.symm (hx a ha1)
    · exact ih hxs a ha1 b hb1 hab

theorem pageOccurrences_valid (ws : List Word) :
    ∀ o ∈ pageOccurrences ws, o.1 ∈ validIds ∧ labelPattern o.1 = true := by
  intro o ho
  rcases List.mem_filterMap.mp ho with ⟨w, _, hw⟩
  dsimp only at hw
  by_cases hc : labelPattern (cleanedToken w.text) && decide (cleanedToken w.text ∈ validIds)
  · rw [if_pos hc] at hw
    have hc2 : labelPattern (cleanedToken w.text) = true
        ∧ decide (cleanedToken w.text ∈ validIds) = true := by simpa using hc
    cases hw
    exact ⟨of_decide_eq_true hc2.2, hc2.1⟩
  · rw [if_neg hc] at hw
    cases hw

/-- One `upsertPosition` step keeps the keys pairwise distinct. -/
theorem upsertPosition_pairwise (sx sy : ℚ) (ps : List (String × Box))
    (d : String × ℚ × ℚ × ℚ × ℚ) (h : ps.Pairwise (fun a b => a.1 ≠ b.1)) :
    (upsertPosition sx sy ps d).Pairwise (fun a b => a.1 ≠ b.1) := by
  unfold upsertPosition
  cases hf : ps.find? (fun kv => kv.1 = d.1) with
  | none =>
    dsimp only
    rw [List.pairwise_append]
    refine ⟨h, by simp, ?_⟩
    intro a ha b hb
    simp only [List.mem_singleton] at hb
    subst hb
    intro hcontra
    have := List.find?_eq_none.mp hf a ha
    simp only [decide_eq_true_eq] at this
    exact this hcontra
  | some ex =>
    dsimp only
    by_cases hlt : d.2.1 < ex.2.left
    · rw [if_pos hlt]
      have hkey : ∀ kv : String × Box,
          ((if kv.1 = d.1
            then (d.1, (⟨d.2.1 * sx, d.2.2.1 * sy, d.2.2.2.1 * sx, d.2.2.2.2 * sy⟩ : Box))
            else kv)).1 = kv.1 := by
        intro kv
        by_cases hk : kv.1 = d.1 <;> simp [hk]
      refine List.Pairwise.map _ ?_ h
      intro a b hab
      rw [hkey a, hkey b]
      exact hab
    · rw [if_neg hlt]
      exact h

theorem upsertFold_pairwise (sx sy : ℚ) (dets : List (String × ℚ × ℚ × ℚ × ℚ)) :
    ∀ ps : List (String × Box), ps.Pairwise (fun a b => a.1 ≠ b.1) →
    (dets.foldl (upsertPosition sx sy) ps).Pairwise (fun a b => a.1 ≠ b.1) := by
  induction dets with
  | nil =>
    intro ps h
    exact h
  | cons d ds ih =>
    intro ps h
    rw [List.foldl_cons]
    exact ih _ (upsertPosition_pairwise sx sy ps d h)

/-- Claim C9 amended.  In `extract_label_positions.py` (`extract_for_pdf`)
the claim holds: per page and ID at most one box is retained (distinct
keys), it is one of that ID's detected occurrences, and it is minimal in
the lexicographic `(left, top)` order among them.  In the explanation
generator's `extract_label_positions`, at most one box is retained per ID,
but the retention rule compares the candidate's unscaled `left` with the
stored scaled `left`: the stored box is replaced exactly when
`raw_left < stored_scaled_left`, so equal-`left` ties keep the
first-encountered occurrence (top plays no role). -/
theorem C9_amended_retention :
    (∀ ws : List Word, ∀ label pt, (label, pt) ∈ pageLabels ws →
        (label, pt.1, pt.2) ∈ pageOccurrences ws
        ∧ ∀ o ∈ pageOccurrences ws, o.1 = label → lexLe pt (o.2.1, o.2.2) = true)
    ∧ (∀ ws : List Word, (pageLabels ws).Pairwise (fun a b => a.1 ≠ b.1))
    ∧ (∀ words qids sx sy,
        (extract_label_positions words qids sx sy).Pairwise (fun a b => a.1 ≠ b.1))
    ∧ (∀ sx sy ps d ex, ps.find? (fun kv => kv.1 = d.1) = some ex → ¬ d.2.1 < ex.2.left →
        upsertPosition sx sy ps d = ps)
    ∧ (∀ sx sy ps d ex, ps.find? (fun kv => kv.1 = d.1) = some ex → d.2.1 < ex.2.left →
        upsertPosition sx sy ps d = ps.map (fun kv =>
          if kv.1 = d.1
          then (d.1, ⟨d.2.1 * sx, d.2.2.1 * sy, d.2.2.2.1 * sx, d.2.2.2.2 * sy⟩)
          else kv)) := by
  obtain hspec := fun ws => groupByLabel_spec (pageOccurrences ws)
  refine ⟨?_, ?_, ?_, ?_, ?_⟩
  · intro ws label pt hmem
    obtain ⟨hpw, hprov, hcover, hne⟩ := hspec ws
    rcases List.mem_map.mp hmem with ⟨lc, hlc, hlceq⟩
    have hlabel : lc.1 = label := congrArg Prod.fst hlceq
    have hpt : (sSort lexLe lc.2).headD (0, 0) = pt := congrArg Prod.snd hlceq
    have hmin := sSort_head_min lexLe lexLe_trans lexLe_total lc.2 (hne lc hlc) (0, 0)
    rw [hpt] at hmin
    constructor
    · have := hprov lc hlc pt hmin.1
      rw [hlabel] at this
      exact this
    · intro o ho hkey
      rcases hcover o ho with ⟨lc2, hlc2, hkey2, hmem2⟩
      have : lc2 = lc := by
        apply pairwise_key_unique _ hpw lc2 hlc2 lc hlc
        rw [hkey2, hlabel, hkey]
      rw [this] at hmem2
      exact hmin.2 _ hmem2
  · intro ws
    obtain ⟨hpw, _, _, _⟩ := hspec ws
    unfold pageLabels
    refine List.Pairwise.map _ ?_ hpw
    intro a b hab
    exact hab
  · intro words qids sx sy
    exact upsertFold_pairwise sx sy _ [] (by simp)
  · intro sx sy ps d ex hf hlt
    unfold upsertPosition
    simp only [hf]
    rw [if_neg hlt]
  · intro sx sy ps d ex hf hlt
    unfold upsertPosition
    simp only [hf]
    rw [if_pos hlt]

/-- Claim C9 counterexample, against the explanation generator's
`extract_label_positions`.  Two occurrences of `A1` share `left = 100`
with tops 500 and 100; both are detected, yet the retained box has
top 500 — the first-encountered occurrence wins the tie, not the one with
the smallest top.  And with `scale_x = 2`, the raw `left` 150 of a second
occurrence compares below the stored scaled `left` 200 of the first, so
the box of the occurrence with the larger `left` (150 > 100) is retained. -/
theorem C9_counterexample :
    ((([(⟨100, 500, 110, 510, "A1"⟩ : Word), ⟨100, 100, 110, 110, "A1"⟩].foldl addWord []).map
        (fun l => lineDetections ["A1"] (sSort (fun a b => a.xMin ≤ b.xMin) l.words))).flatten
      = [("A1", 100, 500, 110, 510), ("A1", 100, 100, 110, 110)])
    ∧ extract_label_positions [⟨100, 500, 110, 510, "A1"⟩, ⟨100, 100, 110, 110, "A1"⟩] ["A1"] 1 1
      = [("A1", ⟨100, 500, 110, 510⟩)]
    ∧ ¬ ((500 : ℚ) ≤ 100)
    ∧ ((([(⟨100, 100, 110, 110, "A1"⟩ : Word), ⟨150, 300, 160, 310, "A1"⟩].foldl addWord []).map
        (fun l => lineDetections ["A1"] (sSort (fun a b => a.xMin ≤ b.xMin) l.words))).flatten
      = [("A1", 100, 100, 110, 110), ("A1", 150, 300, 160, 310)])
    ∧ extract_label_positions [⟨100, 100, 110, 110, "A1"⟩, ⟨150, 300, 160, 310, "A1"⟩] ["A1"] 2 1
      = [("A1", ⟨300, 300, 320, 310⟩)]
    ∧ ¬ ((150 : ℚ) ≤ 100) := by
  have hn : normalizeToken "A1" = "A1" := by decide
  refine ⟨?_, ?_, by norm_num, ?_, ?_, by norm_num⟩
  · norm_num [addWord, lineDetections, hn, digitTokens, sSort, sInsert]
  · norm_num [extract_label_positions, addWord, lineDetections, hn, digitTokens,
      upsertPosition, sSort, sInsert, List.find?, List.foldl_cons]
  · norm_num [addWord, lineDetections, hn, digitTokens, sSort, sInsert]
  · norm_num [extract_label_positions, addWord, lineDetections, hn, digitTokens,
      upsertPosition, sSort, sInsert, List.find?, List.foldl_cons]

/-- Witness for C9 amended: the label-position extractor retains the
lexicographically minimal occurrence on a concrete page, and a concrete
tied detection leaves the stored box unchanged. -/
theorem C9_amended_retention_witness :
    (("A1", ((100 : ℚ), (100 : ℚ))).2.1, ("A1", ((100 : ℚ), (100 : ℚ))).2.2)
        ∈ (pageOccurrences [⟨100, 500, 110, 510, "A1"⟩, ⟨100, 100, 110, 110, "A1"⟩]).map
          (fun o => (o.2.1, o.2.2))
    ∧ upsertPosition 1 1 [("A1", ⟨100, 500, 110, 510⟩)] ("A1", 100, 100, 110, 110)
      = [("A1", ⟨100, 500, 110, 510⟩)] := by
  constructor
  · have h := (C9_amended_retention.1
      [⟨100, 500, 110, 510, "A1"⟩, ⟨100, 100, 110, 110, "A1"⟩] "A1" (100, 100) (by decide)).1
    exact List.mem_map.mpr ⟨_, h, rfl⟩
  · exact C9_amended_retention.2.2.2.1 1 1 [("A1", ⟨100, 500, 110, 510⟩)]
      ("A1", 100, 100, 110, 110) ("A1", ⟨100, 500, 110, 510⟩) (by decide) (by norm_num)

theorem pageLabels_keys_valid (ws : List Word) :
    ∀ kv ∈ pageLabels ws, kv.1 ∈ validIds := by
  intro kv hkv
  obtain ⟨_, hprov, _, hne⟩ := groupByLabel_spec (pageOccurrences ws)
  rcases List.mem_map.mp hkv with ⟨lc, hlc, hlceq⟩
  have hkey : lc.1 = kv.1 := congrArg Prod.fst hlceq
  rcases List.exists_mem_of_ne_nil _ (hne lc hlc) with ⟨c, hc⟩
  have := pageOccurrences_valid ws _ (hprov lc hlc c hc)
  rw [← hkey]
  exact this.1

theorem extractForPdfAux_entries (pages : List (List Word)) :
    ∀ pg k labels, (k, labels) ∈ extractForPdfAux pg pages
      → ∃ ws ∈ pages, labels = pageLabels ws ∧ labels ≠ [] := by
  induction pages with
  | nil =>
    intro pg k labels h
    cases h
  | cons ws rest ih =>
    intro pg k labels h
    unfold extractForPdfAux at h
    rcases List.mem_append.mp h with h1 | h1
    · by_cases he : (pageLabels ws).isEmpty
      · rw [if_pos he] at h1
        cases h1
      · rw [if_neg he] at h1
        simp only [List.mem_singleton, Prod.mk.injEq] at h1
        refine ⟨ws, List.mem_cons_self ws rest, h1.2, ?_⟩
        rw [h1.2]
        intro hcontra
        rw [hcontra] at he
        exact he rfl
    · rcases ih (pg + 1) k labels h1 with ⟨ws2, hws2, heq, hne⟩
      exact ⟨ws2, List.mem_cons_of_mem ws hws2, heq, hne⟩

theorem extractForPdfAux_presence (pages : List (List Word)) :
    ∀ pg k, (∃ labels, (k, labels) ∈ extractForPdfAux pg pages)
      ↔ ∃ j, j < pages.length ∧ k = pg + j ∧ pageLabels (pages.getD j []) ≠ [] := by
  induction pages with
  | nil =>
    intro pg k
    constructor
    · intro ⟨labels, h⟩
      cases h
    · intro ⟨j, hj, _⟩
      exact absurd hj (Nat.not_lt_zero j)
  | cons ws rest ih =>
    intro pg k
    constructor
    · intro ⟨labels, h⟩
      unfold extractForPdfAux at h
      rcases List.mem_append.mp h with h1 | h1
      · by_cases he : (pageLabels ws).isEmpty
        · rw [if_pos he] at h1
          cases h1
        · rw [if_neg he] at h1
          simp only [List.mem_singleton, Prod.mk.injEq] at h1
          refine ⟨0, by simp, by omega, ?_⟩
          rw [List.getD_cons_zero]
          intro hcontra
          rw [hcontra] at he
          exact he rfl
      · rcases (ih (pg + 1) k).mp ⟨labels, h1⟩ with ⟨j, hj, hk, hp⟩
        refine ⟨j + 1, by simp only [List.length_cons]; omega, by omega, ?_⟩
        rw [List.getD_cons_succ]
        exact hp
    · intro ⟨j, hj, hk, hp⟩
      unfold extractForPdfAux
      cases j with
      | zero =>
        rw [List.getD_cons_zero] at hp
        have he : (pageLabels ws).isEmpty = false := by
          cases hcase : (pageLabels ws).isEmpty
          · rfl
          · exact absurd (List.isEmpty_iff.mp hcase) hp
        refine ⟨pageLabels ws, List.mem_append_left _ ?_⟩
        rw [he]
        simp only [Bool.false_eq_true, if_false, List.mem_singleton]
        have hkpg : k = pg := by omega
        rw [hkpg]
      | succ j2 =>
        rw [List.getD_cons_succ] at hp
        simp only [List.length_cons] at hj
        rcases (ih (pg + 1) k).mpr ⟨j2, by omega, by omega, hp⟩ with ⟨labels, h1⟩
        exact ⟨labels, List.mem_append_right _ h1⟩

/-- Claim C10: every key of a per-page labels mapping produced by
`extract_for_pdf` is one of the 30 valid question IDs, and a (1-based)
page number appears as a key exactly when at least one valid label was
detected on that page — pages with no labels are omitted rather than mapped
to an empty object.  The last conjunct spells out the 30 IDs. -/
theorem C10_labels_invariant :
    (∀ pages pg labels, (pg, labels) ∈ extract_for_pdf pages →
        labels ≠ [] ∧ ∀ kv ∈ labels, kv.1 ∈ validIds)
    ∧ (∀ (pages : List (List Word)) (i : ℕ), i < pages.length →
        ((∃ labels, (i + 1, labels) ∈ extract_for_pdf pages)
          ↔ pageLabels (pages.getD i []) ≠ []))
    ∧ validIds = ["A1", "A2", "A3", "A4", "A5", "A6", "A7", "A8", "A9", "A10",
        "B1", "B2", "B3", "B4", "B5", "B6", "B7", "B8", "B9", "B10",
        "C1", "C2", "C3", "C4", "C5", "C6", "C7", "C8", "C9", "C10"] := by
  refine ⟨?_, ?_, by decide⟩
  · intro pages pg labels h
    rcases extractForPdfAux_entries pages 1 pg labels h with ⟨ws, _, heq, hne⟩
    refine ⟨hne, ?_⟩
    rw [heq]
    exact pageLabels_keys_valid ws
  · intro pages i hi
    rw [extract_for_pdf, extractForPdfAux_presence pages 1 (i + 1)]
    constructor
    · intro ⟨j, hj, hk, hp⟩
      have : j = i := by omega
      rw [← this]
      exact hp
    · intro hp
      exact ⟨i, hi, by omega, hp⟩

/-- Witness for C10 on a concrete two-page document: page 1 has no valid
label and is omitted; page 2 contributes key `B3` (cleaned from `B3.`). -/
theorem C10_labels_invariant_witness :
    ((2, [("B3", ((100 : ℚ), (100 : ℚ)))])
        ∈ extract_for_pdf [[⟨100, 100, 110, 110, "zz"⟩], [⟨100, 100, 110, 110, "B3."⟩]]
      → [("B3", ((100 : ℚ), (100 : ℚ)))] ≠ []
        ∧ ∀ kv ∈ [("B3", ((100 : ℚ), (100 : ℚ)))], kv.1 ∈ validIds)
    ∧ ((∃ labels, (0 + 1, labels)
          ∈ extract_for_pdf [[⟨100, 100, 110, 110, "zz"⟩], [⟨100, 100, 110, 110, "B3."⟩]])
        ↔ pageLabels ([[(⟨100, 100, 110, 110, "zz"⟩ : Word)],
            [⟨100, 100, 110, 110, "B3."⟩]].getD 0 []) ≠ []) :=
  ⟨C10_labels_invariant.1 [[⟨100, 100, 110, 110, "zz"⟩], [⟨100, 100, 110, 110, "B3."⟩]]
      2 [("B3", ((100 : ℚ), (100 : ℚ)))],
    C10_labels_invariant.2.1 [[⟨100, 100, 110, 110, "zz"⟩], [⟨100, 100, 110, 110, "B3."⟩]]
      0 (by norm_num)⟩

/-! ## Section-boundary extraction (`find_section` in
scripts/ocr_translate_solutions.py, and the identical logic in
scripts/extract_solutions.py main).

`spaced_pattern(raw)` joins the characters of `raw` with `\s*`, the section
patterns are `spaced('Klassenstufen') \s* spaced('7') \s* (spaced('und')
| spaced('bis')) \s* spaced('8')` (and 9 / 10), compiled with IGNORECASE.
Because every `\s*` is followed by a non-whitespace literal in both
alternation branches, matching is deterministic: skip the whitespace run,
then require the literal (case-insensitively).  `re.search` returns the
leftmost match. -/

/-- `\s*`: drop the leading whitespace run. -/
def skipWs (t : List Char) : List Char := t.dropWhile isWs

/-- One literal character, case-insensitively (`re.IGNORECASE`). -/
def mLit (c : Char) : List Char → Option (List Char)
  | [] => none
  | x :: xs => if x.toLower = c.toLower then some xs else none

/-- `\s*` then a literal character. -/
def mWsLit (c : Char) (t : List Char) : Option (List Char) := mLit c (skipWs t)

/-- The remaining characters of a spaced literal: each preceded by `\s*`. -/
def mChain : List Char → List Char → Option (List Char)
  | [], t => some t
  | c :: cs, t => (mWsLit c t).bind (mChain cs)

/-- `\s*(u\s*n\s*d|b\s*i\s*s)`, the `und` branch first as in the regex. -/
def mAlt (t : List Char) : Option (List Char) :=
  match (mWsLit 'u' t).bind (mChain ['n', 'd']) with
  | some r => some r
  | none => (mWsLit 'b' t).bind (mChain ['i', 's'])

/-- `section_start`: `Klassenstufen \s* 7 \s* (und|bis) \s* 8`. -/
def pat78 (t : List Char) : Option (List Char) :=
  ((((mLit 'K' t).bind
    (mChain ['l', 'a', 's', 's', 'e', 'n', 's', 't', 'u', 'f', 'e', 'n'])).bind
    (mWsLit '7')).bind mAlt).bind (mWsLit '8')

/-- `section_end`: `Klassenstufen \s* 9 \s* (und|bis) \s* 1\s*0`. -/
def pat910 (t : List Char) : Option (List Char) :=
  ((((mLit 'K' t).bind
    (mChain ['l', 'a', 's', 's', 'e', 'n', 's', 't', 'u', 'f', 'e', 'n'])).bind
    (mWsLit '9')).bind mAlt).bind (mChain ['1', '0'])

/-- `re.search`: try each start position from the left; on success return
the (start, end) offsets of the leftmost match. -/
def searchM (pat : List Char → Option (List Char)) : List Char → Option (ℕ × ℕ)
  | [] =>
    match pat [] with
    | some _ => some (0, 0)
    | none => none
  | c :: t =>
    match pat (c :: t) with
    | some r => some (0, (c :: t).length - r.length)
    | none => (searchM pat t).map (fun p => (p.1 + 1, p.2 + 1))

/-- `find_section(text)`: search the grades 7-8 header, then search the
grades 9-10 header only from the end of that match
(`section_end.search(text, start_match.end())`), and return the text
strictly between the two matches
(`text[start_match.end():end_match.start()]`). -/
def find_section (text : List Char) : Except String (List Char) :=
  match searchM pat78 text with
  | none => .error "Could not find section for Klassenstufen 7 und 8"
  | some (_, e1) =>
    match searchM pat910 (text.drop e1) with
    | none => .error "Could not find end section for Klassenstufen 9 und 10"
    | some (s2, _) => .ok ((text.drop e1).take s2)

/-- Exit status of the section stage: `sys.exit(1)` in
extract_solutions.py, an uncaught `ValueError` (non-zero exit) in
ocr_translate_solutions.py; 0 means both boundaries were found. -/
def sectionExit (text : List Char) : ℕ :=
  match find_section text with
  | .error _ => 1
  | .ok _ => 0

theorem skipWs_ws_append (w : List Char) (hw : ∀ y ∈ w, isWs y = true) (s : List Char) :
    skipWs (w ++ s) = skipWs s := by
  induction w with
  | nil => rfl
  | cons c cs ih =>
    have hc : isWs c = true := hw c (List.mem_cons_self c cs)
    rw [List.cons_append]
    unfold skipWs
    rw [List.dropWhile_cons, if_pos hc]
    exact ih (fun y hy => hw y (List.mem_cons_of_mem c hy))

theorem skipWs_cons_not (x : Char) (t : List Char) (hx : isWs x = false) :
    skipWs (x :: t) = x :: t := by
  unfold skipWs
  rw [List.dropWhile_cons, if_neg (by simp [hx])]

theorem skipWs_decomp (t u : List Char) (x : Char) (h : skipWs t = x :: u) :
    (∃ w, t = w ++ x :: u ∧ ∀ y ∈ w, isWs y = true) ∧ isWs x = false := by
  induction t with
  | nil => cases h
  | cons c cs ih =>
    unfold skipWs at h
    rw [List.dropWhile_cons] at h
    by_cases hc : isWs c
    · rw [if_pos (by simp [hc])] at h
      obtain ⟨⟨w, hw1, hw2⟩, hx⟩ := ih h
      refine ⟨⟨c :: w, ?_, ?_⟩, hx⟩
      · rw [List.cons_append, hw1]
      · intro y hy
        rcases List.mem_cons.mp hy with rfl | hy
        · exact hc
        · exact hw2 y hy
    · rw [if_neg (by simp [hc])] at h
      cases h
      exact ⟨⟨[], rfl, by simp⟩, by simpa using hc⟩

theorem mLit_some (c : Char) (t u : List Char) (h : mLit c t = some u) :
    ∃ x, t = x :: u ∧ x.toLower = c.toLower := by
  cases t with
  | nil => cases h
  | cons x xs =>
    simp only [mLit] at h
    by_cases hx : x.toLower = c.toLower
    · rw [if_pos hx] at h
      cases h
      exact ⟨x, rfl, hx⟩
    · rw [if_neg hx] at h
      cases h

theorem mWsLit_some (c : Char) (t u : List Char) (h : mWsLit c t = some u) :
    ∃ w x, t = w ++ x :: u ∧ (∀ y ∈ w, isWs y = true) ∧ isWs x = false
      ∧ x.toLower = c.toLower := by
  unfold mWsLit at h
  rcases mLit_some c _ u h with ⟨x, hx, hlow⟩
  obtain ⟨⟨w, hw1, hw2⟩, hxws⟩ := skipWs_decomp t u x hx
  exact ⟨w, x, hw1, hw2, hxws, hlow⟩

theorem mLit_append (c : Char) (t u r : List Char) (h : mLit c t = some u) :
    mLit c (t ++ r) = some (u ++ r) := by
  rcases mLit_some c t u h with ⟨x, hx, hlow⟩
  rw [hx, List.cons_append]
  simp only [mLit]
  rw [if_pos hlow]

theorem mWsLit_append (c : Char) (t u r : List Char) (h : mWsLit c t = some u) :
    mWsLit c (t ++ r) = some (u ++ r) := by
  rcases mWsLit_some c t u h with ⟨w, x, ht, hw, hxws, hlow⟩
  unfold mWsLit
  rw [ht, List.append_assoc, skipWs_ws_append w hw, List.cons_append,
    skipWs_cons_not x _ hxws]
  simp only [mLit]
  rw [if_pos hlow]

theorem mChain_append (cs : List Char) (t u r : List Char) (h : mChain cs t = some u) :
    mChain cs (t ++ r) = some (u ++ r) := by
  induction cs generalizing t with
  | nil =>
    unfold mChain at h ⊢
    cases h
    rfl
  | cons c cs2 ih =>
    unfold mChain at h ⊢
    cases hm : mWsLit c t with
    | none => rw [hm] at h; cases h
    | some u1 =>
      rw [hm] at h
      rw [mWsLit_append c t u1 r hm]
      exact ih u1 h

/-- The first non-whitespace character of a text accepted by `mWsLit c`
has `c`'s lower-case; in particular `mWsLit` for a different letter
fails. -/
theorem mWsLit_excl (c c2 : Char) (t u : List Char) (h : mWsLit c t = some u)
    (hne : c.toLower ≠ c2.toLower) (r : List Char) :
    mWsLit c2 (t ++ r) = none := by
  rcases mWsLit_some c t u h with ⟨w, x, ht, hw, hxws, hlow⟩
  unfold mWsLit
  rw [ht, List.append_assoc, skipWs_ws_append w hw, List.cons_append,
    skipWs_cons_not x _ hxws]
  simp only [mLit]
  rw [if_neg (by rw [hlow]; exact hne)]

theorem mAlt_append (t u r : List Char) (h : mAlt t = some u) :
    mAlt (t ++ r) = some (u ++ r) := by
  unfold mAlt at h ⊢
  cases hu : (mWsLit 'u' t).bind (mChain ['n', 'd']) with
  | some u1 =>
    rw [hu] at h
    cases h
    cases hul : mWsLit 'u' t with
    | none => rw [hul] at hu; cases hu
    | some u2 =>
      rw [hul] at hu
      rw [mWsLit_append 'u' t u2 r hul]
      simp only [Option.some_bind] at hu ⊢
      rw [mChain_append ['n', 'd'] u2 u r hu]
  | none =>
    rw [hu] at h
    cases hbl : mWsLit 'b' t with
    | none => rw [hbl] at h; cases h
    | some u2 =>
      rw [hbl] at h
      have hufail : mWsLit 'u' (t ++ r) = none :=
        mWsLit_excl 'b' 'u' t u2 hbl (by decide) r
      rw [hufail]
      simp only [Option.none_bind, Option.some_bind] at h ⊢
      rw [mWsLit_append 'b' t u2 r hbl]
      simp only [Option.some_bind]
      exact mChain_append ['i', 's'] u2 u r h

theorem pat78_append (t u r : List Char) (h : pat78 t = some u) :
    pat78 (t ++ r) = some (u ++ r) := by
  unfold pat78 at h ⊢
  cases h1 : mLit 'K' t with
  | none => rw [h1] at h; cases h
  | some u1 =>
    rw [h1] at h
    rw [mLit_append 'K' t u1 r h1]
    simp only [Option.some_bind] at h ⊢
    cases h2 : mChain ['l', 'a', 's', 's', 'e', 'n', 's', 't', 'u', 'f', 'e', 'n'] u1 with
    | none => rw [h2] at h; cases h
    | some u2 =>
      rw [h2] at h
      rw [mChain_append _ u1 u2 r h2]
      simp only [Option.some_bind] at h ⊢
      cases h3 : mWsLit '7' u2 with
      | none => rw [h3] at h; cases h
      | some u3 =>
        rw [h3] at h
        rw [mWsLit_append '7' u2 u3 r h3]
        simp only [Option.some_bind] at h ⊢
        cases h4 : mAlt u3 with
        | none => rw [h4] at h; cases h
        | some u4 =>
          rw [h4] at h
          rw [mAlt_append u3 u4 r h4]
          simp only [Option.some_bind] at h ⊢
          exact mWsLit_append '8' u4 u r h

theorem pat910_append (t u r : List Char) (h : pat910 t = some u) :
    pat910 (t ++ r) = some (u ++ r) := by
  unfold pat910 at h ⊢
  cases h1 : mLit 'K' t with
  | none => rw [h1] at h; cases h
  | some u1 =>
    rw [h1] at h
    rw [mLit_append 'K' t u1 r h1]
    simp only [Option.some_bind] at h ⊢
    cases h2 : mChain ['l', 'a', 's', 's', 'e', 'n', 's', 't', 'u', 'f', 'e', 'n'] u1 with
    | none => rw [h2] at h; cases h
    | some u2 =>
      rw [h2] at h
      rw [mChain_append _ u1 u2 r h2]
      simp only [Option.some_bind] at h ⊢
      cases h3 : mWsLit '9' u2 with
      | none => rw [h3] at h; cases h
      | some u3 =>
        rw [h3] at h
        rw [mWsLit_append '9' u2 u3 r h3]
        simp only [Option.some_bind] at h ⊢
        cases h4 : mAlt u3 with
        | none => rw [h4] at h; cases h
        | some u4 =>
          rw [h4] at h
          rw [mAlt_append u3 u4 r h4]
          simp only [Option.some_bind] at h ⊢
          exact mChain_append ['1', '0'] u4 u r h

theorem wsChar_toLower_ne_k (y : Char) (h : isWs y = true) : y.toLower ≠ 'k' := by
  simp only [isWs, Bool.or_eq_true, decide_eq_true_eq] at h
  rcases h with ((((rfl | rfl) | rfl) | rfl) | rfl) | rfl <;> decide

theorem mWsLit_consumed (c : Char) (hc : c.toLower ≠ 'k') (t u : List Char)
    (h : mWsLit c t = some u) :
    ∃ p, t = p ++ u ∧ ∀ y ∈ p, y.toLower ≠ 'k' := by
  rcases mWsLit_some c t u h with ⟨w, x, ht, hw, _, hlow⟩
  refine ⟨w ++ [x], by rw [ht, List.append_assoc, List.singleton_append], ?_⟩
  intro y hy
  rcases List.mem_append.mp hy with hy | hy
  · exact wsChar_toLower_ne_k y (hw y hy)
  · simp only [List.mem_singleton] at hy
    subst hy
    rw [hlow]
    exact hc

theorem mChain_consumed (cs : List Char) (hcs : ∀ c ∈ cs, c.toLower ≠ 'k') :
    ∀ t u, mChain cs t = some u → ∃ p, t = p ++ u ∧ ∀ y ∈ p, y.toLower ≠ 'k' := by
  induction cs with
  | nil =>
    intro t u h
    unfold mChain at h
    cases h
    exact ⟨[], rfl, by simp⟩
  | cons c cs2 ih =>
    intro t u h
    unfold mChain at h
    cases hm : mWsLit c t with
    | none => rw [hm] at h; cases h
    | some u1 =>
      rw [hm] at h
      simp only [Option.some_bind] at h
      rcases mWsLit_consumed c (hcs c (List.mem_cons_self c cs2)) t u1 hm with ⟨p1, ht, hp1⟩
      rcases ih (fun x hx => hcs x (List.mem_cons_of_mem c hx)) u1 u h with ⟨p2, hu1, hp2⟩
      refine ⟨p1 ++ p2, by rw [ht, hu1, List.append_assoc], ?_⟩
      intro y hy
      rcases List.mem_append.mp hy with hy | hy
      · exact hp1 y hy
      · exact hp2 y hy

theorem mAlt_consumed (t u : List Char) (h : mAlt t = some u) :
    ∃ p, t = p ++ u ∧ ∀ y ∈ p, y.toLower ≠ 'k' := by
  unfold mAlt at h
  cases hu : (mWsLit 'u' t).bind (mChain ['n', 'd']) with
  | some u1 =>
    rw [hu] at h
    cases h
    cases hul : mWsLit 'u' t with
    | none => rw [hul] at hu; cases hu
    | some u2 =>
      rw [hul] at hu
      simp only [Option.some_bind] at hu
      rcases mWsLit_consumed 'u' (by decide) t u2 hul with ⟨p1, ht, hp1⟩
      rcases mChain_consumed ['n', 'd'] (by decide) u2 u hu with ⟨p2, hu2, hp2⟩
      refine ⟨p1 ++ p2, by rw [ht, hu2, List.append_assoc], ?_⟩
      intro y hy
      rcases List.mem_append.mp hy with hy | hy
      · exact hp1 y hy
      · exact hp2 y hy
  | none =>
    rw [hu] at h
    cases hbl : mWsLit 'b' t with
    | none => rw [hbl] at h; cases h
    | some u2 =>
      rw [hbl] at h
      simp only [Option.some_bind] at h
      rcases mWsLit_consumed 'b' (by decide) t u2 hbl with ⟨p1, ht, hp1⟩
      rcases mChain_consumed ['i', 's'] (by decide) u2 u h with ⟨p2, hu2, hp2⟩
      refine ⟨p1 ++ p2, by rw [ht, hu2, List.append_assoc], ?_⟩
      intro y hy
      rcases List.mem_append.mp hy with hy | hy
      · exact hp1 y hy
      · exact hp2 y hy

/-- A `pat78` match consumes a `K` (either case) followed by characters
none of which is a `k` of any case. -/
theorem pat78_consumed (t u : List Char) (h : pat78 t = some u) :
    ∃ x p, t = x :: (p ++ u) ∧ x.toLower = 'k' ∧ ∀ y ∈ p, y.toLower ≠ 'k' := by
  unfold pat78 at h
  cases h1 : mLit 'K' t with
  | none => rw [h1] at h; cases h
  | some u1 =>
    rw [h1] at h
    simp only [Option.some_bind] at h
    cases h2 : mChain ['l', 'a', 's', 's', 'e', 'n', 's', 't', 'u', 'f', 'e', 'n'] u1 with
    | none => rw [h2] at h; cases h
    | some u2 =>
      rw [h2] at h
      simp only [Option.some_bind] at h
      cases h3 : mWsLit '7' u2 with
      | none => rw [h3] at h; cases h
      | some u3 =>
        rw [h3] at h
        simp only [Option.some_bind] at h
        cases h4 : mAlt u3 with
        | none => rw [h4] at h; cases h
        | some u4 =>
          rw [h4] at h
          simp only [Option.some_bind] at h
          rcases mLit_some 'K' t u1 h1 with ⟨x, ht, hlowx⟩
          rcases mChain_consumed _ (by decide) u1 u2 h2 with ⟨p1, he1, hp1⟩
          rcases mWsLit_consumed '7' (by decide) u2 u3 h3 with ⟨p2, he2, hp2⟩
          rcases mAlt_consumed u3 u4 h4 with ⟨p3, he3, hp3⟩
          rcases mWsLit_consumed '8' (by decide) u4 u h with ⟨p4, he4, hp4⟩
          refine ⟨x, p1 ++ p2 ++ p3 ++ p4, ?_, by rw [hlowx]; decide, ?_⟩
          · rw [ht, he1, he2, he3, he4]
            simp [List.append_assoc]
          · intro y hy
            simp only [List.append_assoc, List.mem_append] at hy
            rcases hy with hy | hy | hy | hy
            · exact hp1 y hy
            · exact hp2 y hy
            · exact hp3 y hy
            · exact hp4 y hy

theorem searchM_le (pat : List Char → Option (List Char)) :
    ∀ (text : List Char) (p : ℕ), (pat (text.drop p)).isSome = true →
    ∃ s e, searchM pat text = some (s, e) ∧ s ≤ p := by
  intro text
  induction text with
  | nil =>
    intro p h
    rw [List.drop_nil] at h
    rcases Option.isSome_iff_exists.mp h with ⟨r, hr⟩
    refine ⟨0, 0, ?_, Nat.zero_le p⟩
    simp only [searchM, hr]
  | cons c t ih =>
    intro p h
    cases hm : pat (c :: t) with
    | some r =>
      exact ⟨0, (c :: t).length - r.length, by simp only [searchM, hm], Nat.zero_le p⟩
    | none =>
      cases p with
      | zero =>
        rw [List.drop_zero, hm] at h
        cases h
      | succ p2 =>
        rw [List.drop_succ_cons] at h
        rcases ih p2 h with ⟨s, e, hs, hle⟩
        refine ⟨s + 1, e + 1, ?_, by omega⟩
        simp only [searchM, hm, hs]
        rfl

theorem searchM_spec (pat : List Char → Option (List Char)) :
    ∀ (text : List Char) (s e : ℕ), searchM pat text = some (s, e) →
    ∃ u, pat (text.drop s) = some u ∧ e = s + ((text.drop s).length - u.length) := by
  intro text
  induction text with
  | nil =>
    intro s e h
    simp only [searchM] at h
    cases hm : pat [] with
    | none => rw [hm] at h; cases h
    | some r =>
      rw [hm] at h
      cases h
      exact ⟨r, by rw [List.drop_nil]; exact hm, by simp⟩
  | cons c t ih =>
    intro s e h
    simp only [searchM] at h
    cases hm : pat (c :: t) with
    | some r =>
      rw [hm] at h
      cases h
      exact ⟨r, by rw [List.drop_zero]; exact hm, by simp⟩
    | none =>
      rw [hm] at h
      cases hs : searchM pat t with
      | none => rw [hs] at h; cases h
      | some pr =>
        rw [hs] at h
        simp only [Option.map_some] at h
        cases h
        rcases ih pr.1 pr.2 (by rw [hs]) with ⟨u, hu, he⟩
        refine ⟨u, by rw [List.drop_succ_cons]; exact hu, ?_⟩
        rw [List.drop_succ_cons]
        omega

/-- The leftmost `pat78` match in `a ++ w1 ++ rest`, where `w1` is a full
header instance, ends no later than the end of `w1`: a match cannot
straddle the start of `w1`, because a consumed slice contains a `k` only
as its first character while `w1` starts with one. -/
theorem pat78_search_bound (a w1 rest : List Char) (h1 : pat78 w1 = some []) :
    ∃ s1 e1, searchM pat78 (a ++ (w1 ++ rest)) = some (s1, e1)
      ∧ e1 ≤ a.length + w1.length := by
  have hdropa : (a ++ (w1 ++ rest)).drop a.length = w1 ++ rest := List.drop_left a (w1 ++ rest)
  have hw1rest : pat78 (w1 ++ rest) = some rest := by
    have := pat78_append w1 [] rest h1
    rwa [List.nil_append] at this
  have hmatch : pat78 ((a ++ (w1 ++ rest)).drop a.length) = some rest := by
    rw [hdropa]
    exact hw1rest
  obtain ⟨s1, e1, hs, hsle⟩ := searchM_le pat78 (a ++ (w1 ++ rest)) a.length
    (by rw [hmatch]; rfl)
  refine ⟨s1, e1, hs, ?_⟩
  obtain ⟨u, hu, he⟩ := searchM_spec pat78 (a ++ (w1 ++ rest)) s1 e1 hs
  obtain ⟨xk, p, hdecomp, hxk, hnok⟩ := pat78_consumed _ u hu
  rcases Nat.lt_or_ge s1 a.length with hlt | hge
  · have hlen : ((a ++ (w1 ++ rest)).drop s1).length = 1 + (p.length + u.length) := by
      rw [hdecomp]
      simp only [List.length_cons, List.length_append]
      omega
    have he1 : e1 = s1 + 1 + p.length := by
      rw [he, hlen]
      omega
    by_cases hcase : e1 ≤ a.length
    · exact le_trans hcase (Nat.le_add_right _ _)
    · exfalso
      push_neg at hcase
      obtain ⟨xh, pw, hw1, hxh, _⟩ := pat78_consumed w1 [] h1
      rw [List.append_nil] at hw1
      have hdrop2 : (a ++ (w1 ++ rest)).drop s1 = (a.drop s1) ++ (w1 ++ rest) :=
        List.drop_append_of_le_length (le_of_lt hlt)
      have hkey : (xk :: p) ++ u = (a.drop s1) ++ (xh :: (pw ++ rest)) := by
        rw [List.cons_append, ← hdecomp, hdrop2, hw1, List.cons_append]
      have hAlen : (a.drop s1).length = a.length - s1 := List.length_drop s1 a
      have hAX : (a.drop s1).length < (xk :: p).length := by
        simp only [List.length_cons]
        omega
      have htake : (xk :: p).take (a.drop s1).length = a.drop s1 := by
        have ht1 : ((xk :: p) ++ u).take (a.drop s1).length
            = (xk :: p).take (a.drop s1).length :=
          List.take_append_of_le_length (le_of_lt hAX)
        have ht2 : ((a.drop s1) ++ (xh :: (pw ++ rest))).take (a.drop s1).length
            = a.drop s1 := List.take_left _ _
        rw [← ht1, hkey, ht2]
      have hdropX : (xk :: p).drop (a.drop s1).length ++ u = xh :: (pw ++ rest) := by
        have hd1 : ((xk :: p) ++ u).drop (a.drop s1).length
            = (xk :: p).drop (a.drop s1).length ++ u :=
          List.drop_append_of_le_length (le_of_lt hAX)
        have hd2 : ((a.drop s1) ++ (xh :: (pw ++ rest))).drop (a.drop s1).length
            = xh :: (pw ++ rest) := List.drop_left _ _
        rw [← hd1, hkey, hd2]
      cases hXd : (xk :: p).drop (a.drop s1).length with
      | nil =>
        rw [hXd, List.nil_append] at hdropX
        have : u.length = (xh :: (pw ++ rest)).length := by rw [hdropX]
        have hXlen : ((xk :: p).drop (a.drop s1).length).length = 0 := by rw [hXd]; rfl
        rw [List.length_drop] at hXlen
        omega
      | cons z zs =>
        have hz : z = xh := by
          rw [hXd, List.cons_append] at hdropX
          exact (List.cons.injEq _ _ _ _ ▸ hdropX).1
        have h1A : 1 ≤ (a.drop s1).length := by omega
        have hzmem : z ∈ p := by
          have hmem : z ∈ (xk :: p).drop (a.drop s1).length := by
            rw [hXd]
            exact List.mem_cons_self z zs
          have hsplit : (xk :: p).drop (a.drop s1).length
              = ((xk :: p).drop 1).drop ((a.drop s1).length - 1) := by
            rw [List.drop_drop]
            congr 1
            omega
          rw [hsplit] at hmem
          exact List.mem_of_mem_drop hmem
        have := hnok z hzmem
        rw [hz, hxh] at this
        exact this rfl
  · have hs1 : s1 = a.length := le_antisymm hsle hge
    subst hs1
    rw [hmatch] at hu
    cases hu
    rw [hdropa] at he
    have : (w1 ++ rest).length = w1.length + rest.length := List.length_append _ _
    omega

/-- Claim C6: `find_section` locates the grades 7-8 header, searches for
the grades 9-10 header only at or after the end of that match, and on
booklet text of the form `a ++ w1 ++ b ++ w2 ++ c` — where `w1` is any
(arbitrarily whitespace-padded, case-varied) instance of the 7-8 header
and `w2` one of the 9-10 header — both searches succeed and the text
strictly between the located matches is returned; the section stage exits
with 0 exactly when extraction succeeds (non-zero otherwise). -/
theorem C6_section_extraction :
    (∀ a w1 b w2 c : List Char, pat78 w1 = some [] → pat910 w2 = some [] →
      ∃ s1 e1 s2 e2,
        searchM pat78 (a ++ (w1 ++ (b ++ (w2 ++ c)))) = some (s1, e1)
        ∧ e1 ≤ a.length + w1.length
        ∧ searchM pat910 ((a ++ (w1 ++ (b ++ (w2 ++ c)))).drop e1) = some (s2, e2)
        ∧ find_section (a ++ (w1 ++ (b ++ (w2 ++ c))))
            = Except.ok (((a ++ (w1 ++ (b ++ (w2 ++ c)))).drop e1).take s2))
    ∧ (∀ text : List Char, sectionExit text = 0 ↔ ∃ r, find_section text = Except.ok r)
    ∧ (∀ text : List Char, ∀ s1 e1, searchM pat78 text = some (s1, e1) →
        find_section text
          = match searchM pat910 (text.drop e1) with
            | none => Except.error "Could not find end section for Klassenstufen 9 und 10"
            | some (s2, _) => Except.ok ((text.drop e1).take s2)) := by
  refine ⟨?_, ?_, ?_⟩
  · intro a w1 b w2 c h1 h2
    obtain ⟨s1, e1, hs78, hbound⟩ := pat78_search_bound a w1 (b ++ (w2 ++ c)) h1
    have hw2c : pat910 (w2 ++ c) = some c := by
      have := pat910_append w2 [] c h2
      rwa [List.nil_append] at this
    have hdropfar : (a ++ (w1 ++ (b ++ (w2 ++ c)))).drop (a.length + w1.length + b.length)
        = w2 ++ c := by
      rw [show a ++ (w1 ++ (b ++ (w2 ++ c))) = ((a ++ w1) ++ b) ++ (w2 ++ c) by
        simp [List.append_assoc]]
      rw [show a.length + w1.length + b.length = ((a ++ w1) ++ b).length by
        simp only [List.length_append]]
      exact List.drop_left _ _
    have hsecond : (pat910 (((a ++ (w1 ++ (b ++ (w2 ++ c)))).drop e1).drop
        (a.length + w1.length + b.length - e1))).isSome = true := by
      rw [List.drop_drop]
      rw [show e1 + (a.length + w1.length + b.length - e1)
        = a.length + w1.length + b.length by omega]
      rw [hdropfar, hw2c]
      rfl
    obtain ⟨s2, e2, hs910, _⟩ := searchM_le pat910 _ _ hsecond
    refine ⟨s1, e1, s2, e2, hs78, hbound, hs910, ?_⟩
    unfold find_section
    rw [hs78]
    simp only
    rw [hs910]
  · intro text
    unfold sectionExit
    cases hf : find_section text with
    | error msg =>
      constructor
      · intro h
        exact absurd h one_ne_zero
      · rintro ⟨r, hr⟩
        cases hr
    | ok r =>
      exact ⟨fun _ => ⟨r, rfl⟩, fun _ => rfl⟩
  · intro text s1 e1 h
    unfold find_section
    rw [h]

/-- Witness for C6 at a concrete booklet text, whitespace inserted between
every character of the first header. -/
theorem C6_section_extraction_witness :
    ∃ s1 e1 s2 e2,
      searchM pat78 ("intro ".toList ++ ("K l a s s e n s t u f e n  7  u n d  8".toList
          ++ (" middle ".toList ++ ("Klassenstufen 9 bis 10".toList ++ " tail".toList))))
        = some (s1, e1)
      ∧ e1 ≤ "intro ".toList.length + "K l a s s e n s t u f e n  7  u n d  8".toList.length
      ∧ searchM pat910 (("intro ".toList ++ ("K l a s s e n s t u f e n  7  u n d  8".toList
          ++ (" middle ".toList ++ ("Klassenstufen 9 bis 10".toList ++ " tail".toList)))).drop e1)
        = some (s2, e2)
      ∧ find_section ("intro ".toList ++ ("K l a s s e n s t u f e n  7  u n d  8".toList
          ++ (" middle ".toList ++ ("Klassenstufen 9 bis 10".toList ++ " tail".toList))))
        = Except.ok ((("intro ".toList ++ ("K l a s s e n s t u f e n  7  u n d  8".toList
            ++ (" middle ".toList ++ ("Klassenstufen 9 bis 10".toList
              ++ " tail".toList)))).drop e1).take s2) :=
  C6_section_extraction.1 "intro ".toList "K l a s s e n s t u f e n  7  u n d  8".toList
    " middle ".toList "Klassenstufen 9 bis 10".toList " tail".toList (by decide) (by decide)

end Kanguru
